import Mathlib

/-!
# nbind: the V8 binding layer (`src/v8/Binding.cc`)

A shallow embedding of the getter-name normaliser `stripGetterPrefix`, of the
type identity `NBindID` and of the registry walk `initModule`, with the
properties the specification states about them.

Conventions of the embedding:

* a C character is its byte value, a natural number;
* a NUL-terminated string is the list of its characters before the
  terminator; reading index `i` of a string `s` gives `s[i]` inside the string
  and the terminator `0` at `i = strlen s`;
* a pointer that may be `nullptr` is an `Option`, or a number with `0` for
  `nullptr` when only its identity matters (function pointers);
* `unsigned int` arithmetic that can overflow is taken modulo `2 ^ 32`.
-/

namespace NBind

/-! ## Strings -/

/-- The C expression `name[i]`: the character at index `i`, the terminator when
`i` is the length of the string. -/
def charAt (name : List Nat) (i : Nat) : Nat := name.getD i 0

/-- The C function `strlen`. -/
def strlen (name : List Nat) : Nat := name.length

/-- The C function `strdup`: a fresh buffer holding a copy of the string, or
`nullptr` when the allocation fails (`allocOk = false`). -/
def strdup (allocOk : Bool) (s : List Nat) : Option (List Nat) :=
  if allocOk then some s else none

/-- Conversion of an `int` to `char`, on byte values. -/
def toChar (n : Nat) : Nat := n % 256

/-! ## `stripGetterPrefix` -/

/-- What `stripGetterPrefix` returns: a pointer into the name it was given
(`name + off`) or the pointer to the buffer `nameBuf`. -/
inductive StrPtr where
  | inName (off : Nat)
  | inBuf
  deriving DecidableEq, Repr

/-- The string a returned pointer designates, given the name and the buffer. -/
def deref (name : List Nat) (nameBuf : Option (List Nat)) : StrPtr → List Nat
  | .inName off => name.drop off
  | .inBuf => nameBuf.getD []

/-- The function `stripGetterPrefix(name, nameBuf)`: the returned pointer and the value of
the reference parameter `nameBuf` on return. `allocOk` tells whether the
`strdup` on the lowercasing path succeeds. -/
def stripGetterPrefix (name : List Nat) (nameBuf : Option (List Nat)) (allocOk : Bool) :
    StrPtr × Option (List Nat) :=
  if strlen name ≤ 3 ∨
      (charAt name 0 ≠ 'G'.toNat ∧ charAt name 0 ≠ 'g'.toNat) ∨
      charAt name 1 ≠ 'e'.toNat ∨
      charAt name 2 ≠ 't'.toNat then
    (.inName 0, nameBuf)
  else
    let c := charAt name 3
    -- "Get_foo", "get_foo" => Remove 4 first characters.
    if c = '_'.toNat then (.inName 4, nameBuf)
    -- "Getfoo", "getfoo" => Remove 3 first characters.
    else if 'a'.toNat ≤ c ∧ c ≤ 'z'.toNat then (.inName 3, nameBuf)
    else if 'A'.toNat ≤ c ∧ c ≤ 'Z'.toNat then
      -- "GetFOO", "getFOO" => Remove first 3 characters.
      if 'A'.toNat ≤ charAt name 4 ∧ charAt name 4 ≤ 'Z'.toNat then (.inName 3, nameBuf)
      else
        -- free(nameBuf); nameBuf = strdup(name + 3);
        match strdup allocOk (name.drop 3) with
        | some buf =>
          -- nameBuf[0] = c + ('a' - 'A');
          (.inBuf, some (buf.set 0 (toChar (c + ('a'.toNat - 'A'.toNat)))))
        | none => (.inName 0, none)
    else (.inName 0, nameBuf)

/-- The string `stripGetterPrefix` returns. -/
def strippedName (name : List Nat) (nameBuf : Option (List Nat)) (allocOk : Bool) : List Nat :=
  deref name (stripGetterPrefix name nameBuf allocOk).2 (stripGetterPrefix name nameBuf allocOk).1

/-- The bytes of an ASCII string literal. -/
def cstr (s : String) : List Nat := s.toList.map Char.toNat

/-- ASCII uppercase letter, `c >= 'A' && c <= 'Z'`. -/
def isUpper (c : Nat) : Prop := 'A'.toNat ≤ c ∧ c ≤ 'Z'.toNat

/-- ASCII lowercase letter, `c >= 'a' && c <= 'z'`. -/
def isLower (c : Nat) : Prop := 'a'.toNat ≤ c ∧ c ≤ 'z'.toNat

instance (c : Nat) : Decidable (isUpper c) := by unfold isUpper; infer_instance
instance (c : Nat) : Decidable (isLower c) := by unfold isLower; infer_instance

/-- The name begins with `get` or `Get`. -/
def hasGetPrefix (name : List Nat) : Prop :=
  (charAt name 0 = 'g'.toNat ∨ charAt name 0 = 'G'.toNat) ∧
    charAt name 1 = 'e'.toNat ∧ charAt name 2 = 't'.toNat

instance (name : List Nat) : Decidable (hasGetPrefix name) := by
  unfold hasGetPrefix; infer_instance

/-- The lowercase letter corresponding to the uppercase letter `c`: the one at
the same position of the alphabet. -/
def lowerOf (c : Nat) : Nat := 'a'.toNat + (c - 'A'.toNat)

/-! ## `NBindID` -/

/-- The digits of `NBindID::toString`, the string literal `"0123456789abcdef"`. -/
def alphabet : List Nat := cstr "0123456789abcdef"

/-- A string on the heap: the address of its buffer and its characters. -/
structure HeapStr where
  addr : Nat
  chars : List Nat
  deriving DecidableEq, Repr

/-- The object `NBindID`: the type key `id` and the cached display string
`name`, `none` for `nullptr`. -/
structure NBindID where
  id : Nat
  name : Option HeapStr
  deriving DecidableEq, Repr

/-- The constructor `NBindID(TYPEID id)`. -/
def NBindID.new (id : Nat) : NBindID := { id := id, name := none }

/-- The string held by a character array: its characters up to the first NUL. -/
def stringOf (buf : List Nat) : List Nat := buf.takeWhile (fun c => c ≠ 0)

/-- The loop of `NBindID::toString`,
`while(pos--) { newName[pos] = alphabet[code & 15]; code >>= 4; }`,
from the values of `pos`, `code` and the array `newName` on entry: the array
on exit. -/
def hexLoop : Nat → Nat → List Nat → List Nat
  | 0, _, newName => newName
  | pos + 1, code, newName =>
    hexLoop pos (code >>> 4) (newName.set pos (charAt alphabet (code &&& 15)))

/-- The method `NBindID::toString()`: the returned string and the object after the call.
`sz` is `sizeof(id)`, the size in bytes of a type key (and of `uintptr_t`);
`addr` and `fresh` are the address and the uninitialised content of the array
that `new char[sizeof(id) * 2 + 1]` hands out, should the call allocate. -/
def NBindID.toString (sz : Nat) (addr : Nat) (fresh : Nat → Nat) (self : NBindID) :
    HeapStr × NBindID :=
  match self.name with
  | some name => (name, self)
  | none =>
    let newName := (List.range (sz * 2 + 1)).map fresh
    let pos := (sz * 2) % 2 ^ 32
    let code := self.id % 2 ^ (8 * sz)
    let newName := newName.set pos 0
    let newName := hexLoop pos code newName
    let name : HeapStr := { addr := addr, chars := stringOf newName }
    (name, { self with name := some name })

/-- The value of a lowercase hexadecimal digit. -/
def hexDigitValue (c : Nat) : Option Nat :=
  if '0'.toNat ≤ c ∧ c ≤ '9'.toNat then some (c - '0'.toNat)
  else if 'a'.toNat ≤ c ∧ c ≤ 'f'.toNat then some (c - 'a'.toNat + 10)
  else none

/-- Reading a string as a lowercase base-16 numeral, most significant digit
first; `none` when a character is not a digit. -/
def readHex (s : List Nat) : Option Nat :=
  s.foldl (fun acc c => acc.bind (fun a => (hexDigitValue c).map (fun v => a * 16 + v)))
    (some 0)

/-- The `n` lowest hexadecimal digits of `k`, as characters, least significant
digit last. -/
def hexDigits : Nat → Nat → List Nat
  | 0, _ => []
  | n + 1, k => hexDigits n (k >>> 4) ++ [charAt alphabet (k &&& 15)]

/-! ## `initModule` -/

/-- Modelled from the spec: the roles of a signature, `BaseSignature::SignatureType`,
whose declaration is in a header outside the sources; the spec lists
constructor, method, free function, getter, setter and none. -/
inductive SignatureType where
  | none
  | func
  | method
  | getter
  | setter
  | construct
  deriving DecidableEq, Repr

/-- A signature as `initModule` uses it: `getType()` and `getCaller()`, the
latter a function pointer, `0` for `nullptr`. -/
structure BaseSignature where
  type : SignatureType
  caller : Nat
  deriving DecidableEq, Repr

/-- A `const char *` naming a member: its address and the string there. -/
structure NamePtr where
  addr : Nat
  chars : List Nat
  deriving DecidableEq, Repr

/-- An entry of a method list as `initModule` uses it: `getName()`, `getNum()`
and `getSignature()`, the latter `none` for `nullptr`. -/
structure MethodDef where
  name : NamePtr
  num : Nat
  signature : Option BaseSignature
  deriving DecidableEq, Repr

/-- An entry of the function list: its signature is dereferenced unchecked. -/
structure FunctionDef where
  name : NamePtr
  num : Nat
  signature : BaseSignature
  deriving DecidableEq, Repr

/-- A class as `initModule` uses it: `getName()`, `isReady()`,
`getMethodList()`, `getDeleter()`, `wrapperConstructorNum` and `wrapPtr`. -/
structure BindClass where
  name : List Nat
  ready : Bool
  methodList : List MethodDef
  deleter : Nat
  wrapperConstructorNum : Nat
  wrapPtr : Nat
  deriving DecidableEq, Repr

/-- What `initModule` takes from the headers outside the sources: the marker
names `emptyGetter` and `emptySetter` (addresses, compared as pointers), the
shifts `accessorSetterShift` and `overloadShift`, the address of
`BindClass<NBind>::getInstance()`, and the method `init()` of a class. -/
structure Config where
  emptyGetter : Nat
  emptySetter : Nat
  accessorSetterShift : Nat
  overloadShift : Nat
  nbindInstance : Nat
  init : BindClass → BindClass

/-- A member set on a class template from the method list. -/
inductive Member where
  /-- A call `Nan::SetPrototypeTemplate(constructorTemplate, name, New<FunctionTemplate>(caller, num))` -/
  | proto (name : List Nat) (caller : Nat) (num : Nat)
  /-- A call `Nan::SetTemplate(constructorTemplate, name, New<FunctionTemplate>(caller, num))` -/
  | static (name : List Nat) (caller : Nat) (num : Nat)
  /-- A call `Nan::SetAccessor(proto, name, getter, setter, tag)` -/
  | accessor (name : List Nat) (getter : Nat) (setter : Nat) (tag : Nat)
  deriving DecidableEq, Repr

/-- The expression `(setterNum << accessorSetterShift) | getterNum` on
`unsigned int`. -/
def packAccessor (accessorSetterShift setterNum getterNum : Nat) : Nat :=
  ((setterNum <<< accessorSetterShift) % 2 ^ 32) ||| getterNum

/-- The local variables of the loop over a method list, and the members set on
the template so far, in the order of the calls. -/
structure WalkState where
  nameBuf : Option (List Nat)
  setter : Nat
  getter : Nat
  getterNum : Nat
  setterNum : Nat
  members : List Member
  deriving DecidableEq, Repr

/-- The locals before the loop: `nameBuf`, `setter` and `getter` are `nullptr`,
the numbers are 0. -/
def WalkState.start : WalkState :=
  { nameBuf := none, setter := 0, getter := 0, getterNum := 0, setterNum := 0, members := [] }

/-- The body of the loop over a method list, for the entry `func`; `allocOk`
tells whether a `strdup` made for this entry succeeds. -/
def methodStep (cfg : Config) (allocOk : Bool) (st : WalkState) (func : MethodDef) :
    WalkState :=
  match func.signature with
  | none =>
    let st1 :=
      if func.name.addr = cfg.emptyGetter then { st with getter := 0, getterNum := 0 } else st
    if func.name.addr = cfg.emptySetter then { st1 with setter := 0, setterNum := 0 } else st1
  | some signature =>
    match signature.type with
    | .method =>
      { st with members := st.members ++ [.proto func.name.chars signature.caller func.num] }
    | .func =>
      { st with members := st.members ++ [.static func.name.chars signature.caller func.num] }
    | .setter => { st with setter := signature.caller, setterNum := func.num }
    | .getter =>
      let getter := signature.caller
      let getterNum := func.num
      let stripped := stripGetterPrefix func.name.chars st.nameBuf allocOk
      { st with
        getter := getter
        getterNum := getterNum
        nameBuf := stripped.2
        members := st.members ++
          [.accessor (deref func.name.chars stripped.2 stripped.1) getter st.setter
            (packAccessor cfg.accessorSetterShift st.setterNum getterNum)] }
    -- Constructors in method list are ignored.
    | .construct => st
    | .none => st

/-- The loop `for(auto &func : bindClass->getMethodList())`, from the entry of
index `i` on; `alloc j` tells whether a `strdup` made for the entry of index
`j` succeeds. -/
def walkMethods (cfg : Config) (alloc : Nat → Bool) :
    Nat → WalkState → List MethodDef → WalkState
  | _, st, [] => st
  | i, st, func :: rest => walkMethods cfg alloc (i + 1) (methodStep cfg (alloc i) st func) rest

/-- The members `initModule` sets from a method list. -/
def exposedMembers (cfg : Config) (alloc : Nat → Bool) (methods : List MethodDef) :
    List Member :=
  (walkMethods cfg alloc 0 WalkState.start methods).members

/-- The constructor template built for a class: the class it is for, the number
bound to `Overloader::create`, the class name, the internal field count, the
deleter bound as prototype member `free`, the members from the method list,
and the static member `NBind`: `none` when it is not set, otherwise the handle
it is set to, itself `none` when empty, or the class whose template it is. -/
structure ClassTemplate where
  cls : Nat
  data : Nat
  className : List Nat
  internalFieldCount : Nat
  free : Nat
  members : List Member
  nbind : Option (Option Nat)
  deriving DecidableEq, Repr

/-- A call `exports->Set(name, value)`: a function of the function list or the
constructor of a class. -/
inductive Export where
  | function (name : List Nat) (caller : Nat) (num : Nat)
  | constructor (name : List Nat) (tmpl : ClassTemplate)
  deriving DecidableEq, Repr

/-- What the loop over the class list reads and writes: the classes behind the
pointers of the list, the handle `nBindTemplate` (`none` when empty, otherwise
the class whose template it is), the calls of `init()` as (index of the slot,
class), the calls of `Overloader::setConstructorJS` and `setPtrWrapper` as
(`wrapperConstructorNum`, class, `wrapPtr`), and the calls of `exports->Set`. -/
structure ModuleState where
  classes : Nat → BindClass
  nBindTemplate : Option Nat
  inits : List (Nat × Nat)
  overloader : List (Nat × Nat × Nat)
  exports : List Export

/-- The body of the loop over the class list, for the slot of index `i` holding
`slot`: the state after it and the value left in the slot. -/
def classStep (cfg : Config) (alloc : Nat → Nat → Bool) (i : Nat) (st : ModuleState)
    (slot : Option Nat) : ModuleState × Option Nat :=
  match slot with
  | none => (st, none)
  | some p =>
    -- Avoid registering the same class twice.
    if (st.classes p).ready then (st, none)
    else
      let bindClass := cfg.init (st.classes p)
      let members := exposedMembers cfg (alloc i) bindClass.methodList
      let isNBind : Bool := p = cfg.nbindInstance
      let nBindTemplate := if isNBind then some p else st.nBindTemplate
      let constructorTemplate : ClassTemplate :=
        { cls := p
          data := (bindClass.wrapperConstructorNum <<< cfg.overloadShift) % 2 ^ 32
          className := bindClass.name
          internalFieldCount := 1
          free := bindClass.deleter
          members := members
          nbind := if isNBind then none else some st.nBindTemplate }
      ({ classes := fun q => if q = p then bindClass else st.classes q
         nBindTemplate := nBindTemplate
         inits := st.inits ++ [(i, p)]
         overloader := st.overloader ++ [(bindClass.wrapperConstructorNum, p, bindClass.wrapPtr)]
         exports := st.exports ++ [.constructor bindClass.name constructorTemplate] },
       some p)

/-- The loop `for(auto pos = classList.begin(); pos != classList.end(); ++pos)`,
from the slot of index `i` on: the state after it and the slots as it leaves
them. -/
def walkClasses (cfg : Config) (alloc : Nat → Nat → Bool) :
    Nat → ModuleState → List (Option Nat) → ModuleState × List (Option Nat)
  | _, st, [] => (st, [])
  | i, st, slot :: rest =>
    let r := classStep cfg alloc i st slot
    let w := walkClasses cfg alloc (i + 1) r.1 rest
    (w.1, r.2 :: w.2)

/-- The loop `for(auto &func : getFunctionList())`: one `exports->Set` per
function. -/
def exportFunctions (functionList : List FunctionDef) : List Export :=
  functionList.map (fun func => .function func.name.chars func.signature.caller func.num)

/-- The function `initModule`: from the function list, the class list and the classes behind
its pointers, the state after the walk and the class list as it leaves it.
`registerClass` is the function of that name, from a header outside the
sources, as it acts on the class list. -/
def initModule (cfg : Config) (alloc : Nat → Nat → Bool)
    (registerClass : List (Option Nat) → Nat → List (Option Nat))
    (functionList : List FunctionDef) (classList : List (Option Nat))
    (classes : Nat → BindClass) : ModuleState × List (Option Nat) :=
  -- Register NBind a second time to make sure it's first on the list
  let classList := registerClass classList cfg.nbindInstance
  walkClasses cfg alloc 0
    { classes := classes
      nBindTemplate := none
      inits := []
      overloader := []
      exports := exportFunctions functionList }
    classList

/-! ## The specification's view of a method list -/

/-- The entry has a signature of the given role. -/
def MethodDef.hasRole (m : MethodDef) (role : SignatureType) : Bool :=
  match m.signature with
  | some signature => signature.type = role
  | none => false

/-- The caller of the entry's signature, `nullptr` when it has none. -/
def MethodDef.caller (m : MethodDef) : Nat :=
  match m.signature with
  | some signature => signature.caller
  | none => 0

/-- The entry is an empty-setter marker: no signature, and the name
`emptySetter`. -/
def isEmptySetterMarker (cfg : Config) (m : MethodDef) : Bool :=
  m.signature.isNone && m.name.addr = cfg.emptySetter

/-- The entry is an empty-getter marker: no signature, and the name
`emptyGetter`. -/
def isEmptyGetterMarker (cfg : Config) (m : MethodDef) : Bool :=
  m.signature.isNone && m.name.addr = cfg.emptyGetter

/-- The pending setter after the entries `pre`, as the specification words it:
the most recent setter-role entry with no empty-setter marker after it, if
there is one. -/
def pendingSetter (cfg : Config) (pre : List MethodDef) : Option MethodDef :=
  match pre.reverse.find? (fun m => m.hasRole .setter || isEmptySetterMarker cfg m) with
  | some m => if m.hasRole .setter then some m else none
  | none => none

/-- The caller of the pending setter, `nullptr` when none is pending. -/
def pendingSetterCaller (cfg : Config) (pre : List MethodDef) : Nat :=
  match pendingSetter cfg pre with
  | some m => m.caller
  | none => 0

/-- The id of the pending setter, 0 when none is pending. -/
def pendingSetterNum (cfg : Config) (pre : List MethodDef) : Nat :=
  match pendingSetter cfg pre with
  | some m => m.num
  | none => 0

/-- What a member is to a caller: an instance-callable entry or a class-level
callable, with its name, implementation and id, or an accessor, with the
implementation of its getter. -/
inductive Exposure where
  | instanceCallable (name : List Nat) (caller : Nat) (num : Nat)
  | staticCallable (name : List Nat) (caller : Nat) (num : Nat)
  | accessor (getter : Nat)
  deriving DecidableEq, Repr

/-- The exposure a member set on the template stands for. -/
def Member.exposure : Member → Exposure
  | .proto name caller num => .instanceCallable name caller num
  | .static name caller num => .staticCallable name caller num
  | .accessor _ getter _ _ => .accessor getter

/-- The exposure the specification gives an entry of a method list: a method
is instance-callable and a free function class-level, under the raw name and
with the own id; a getter gives an accessor; the other entries give nothing. -/
def expectedExposure (m : MethodDef) : Option Exposure :=
  if m.hasRole .method then some (.instanceCallable m.name.chars m.caller m.num)
  else if m.hasRole .func then some (.staticCallable m.name.chars m.caller m.num)
  else if m.hasRole .getter then some (.accessor m.caller)
  else none

/-! ## `stripGetterPrefix`, with the reads of the name -/

/-- The function `stripGetterPrefix` together with the indices at which it
reads `name`, in the order of the reads and with the short-circuit evaluation
of `||` and `&&`: `strlen(name)` reads the indices 0 to `strlen(name)`, an
expression `name[i]` reads index `i`, and `strdup(name + 3)` reads the indices
3 to `strlen(name)`. -/
def stripGetterPrefixReads (name : List Nat) (nameBuf : Option (List Nat)) (allocOk : Bool) :
    (StrPtr × Option (List Nat)) × List Nat :=
  -- strlen(name) <= 3
  let r0 := List.range (strlen name + 1)
  if strlen name ≤ 3 then ((.inName 0, nameBuf), r0)
  else
    -- name[0] != 'G' && name[0] != 'g'
    let r1 := r0 ++ (if charAt name 0 ≠ 'G'.toNat then [0, 0] else [0])
    if charAt name 0 ≠ 'G'.toNat ∧ charAt name 0 ≠ 'g'.toNat then ((.inName 0, nameBuf), r1)
    else
      -- name[1] != 'e'
      let r2 := r1 ++ [1]
      if charAt name 1 ≠ 'e'.toNat then ((.inName 0, nameBuf), r2)
      else
        -- name[2] != 't'
        let r3 := r2 ++ [2]
        if charAt name 2 ≠ 't'.toNat then ((.inName 0, nameBuf), r3)
        else
          -- char c = name[3];
          let r4 := r3 ++ [3]
          let c := charAt name 3
          if c = '_'.toNat then ((.inName 4, nameBuf), r4)
          else if 'a'.toNat ≤ c ∧ c ≤ 'z'.toNat then ((.inName 3, nameBuf), r4)
          else if 'A'.toNat ≤ c ∧ c ≤ 'Z'.toNat then
            -- name[4] >= 'A' && name[4] <= 'Z'
            let r5 := r4 ++ (if 'A'.toNat ≤ charAt name 4 then [4, 4] else [4])
            if 'A'.toNat ≤ charAt name 4 ∧ charAt name 4 ≤ 'Z'.toNat then
              ((.inName 3, nameBuf), r5)
            else
              -- nameBuf = strdup(name + 3);
              let r6 := r5 ++ List.range' 3 (strlen name + 1 - 3)
              match strdup allocOk (name.drop 3) with
              | some buf =>
                ((.inBuf, some (buf.set 0 (toChar (c + ('a'.toNat - 'A'.toNat))))), r6)
              | none => ((.inName 0, none), r6)
          else ((.inName 0, nameBuf), r4)

/-! ## `NBindID`: constructors -/

/-- The copy constructor `NBindID(const NBindID &other)`: the new object and
the source after the call. `allocOk` tells whether `strdup` succeeds and
`addr` is the address of the buffer it hands out. -/
def NBindID.copy (allocOk : Bool) (addr : Nat) (other : NBindID) : NBindID × NBindID :=
  ({ id := other.id
     name :=
       match other.name with
       | some name =>
         (strdup allocOk name.chars).map (fun chars => { addr := addr, chars := chars })
       | none => none },
   other)

/-- The move constructor `NBindID(NBindID &&other)`: the new object and the
source after the call. -/
def NBindID.move (other : NBindID) : NBindID × NBindID :=
  ({ id := other.id, name := other.name }, { other with name := none })

/-- The zero-padded lowercase hexadecimal numeral of a key, for keys of `sz`
bytes. -/
def hexOfKey (sz k : Nat) : List Nat := hexDigits (sz * 2) (k % 2 ^ (8 * sz))

/-- The cached string of the object, if any, is the numeral of its own key. -/
def NBindID.cacheValid (sz : Nat) (x : NBindID) : Prop :=
  ∀ name, x.name = some name → name.chars = hexOfKey sz x.id

/-! ## The method list with the allocation outcomes -/

/-- The entries of a method list from the index `i` on, each with the outcome
the allocator has for it. -/
def withOutcomes (alloc : Nat → Bool) : Nat → List MethodDef → List (MethodDef × Bool)
  | _, [] => []
  | i, m :: ms => (m, alloc i) :: withOutcomes alloc (i + 1) ms

/-- The loop over a method list whose entries come with the outcome of the
`strdup` made for them. -/
def walkMethodsWith (cfg : Config) : WalkState → List (MethodDef × Bool) → WalkState
  | st, [] => st
  | st, (func, allocOk) :: rest => walkMethodsWith cfg (methodStep cfg allocOk st func) rest

/-- Two states of the loop over a method list that differ at most in the
pending getter and its id. -/
def WalkState.agree (st st2 : WalkState) : Prop :=
  st.nameBuf = st2.nameBuf ∧ st.setter = st2.setter ∧ st.setterNum = st2.setterNum ∧
    st.members = st2.members

/-! ## Registration -/

/-- Modelled from the spec: `registerClass`, defined outside the sources, as it
acts on the class list: the class is placed ahead of all the classes
registered before it, so that a class registered last is the first of the
walk (the spec has the always-first class "force-registered ahead of all
others", and the comment at the call in `initModule` has it registered a
second time "to make sure it's first on the list"). -/
def registerClass (classList : List (Option Nat)) (p : Nat) : List (Option Nat) :=
  some p :: classList

/-- The constructor template of a call `exports->Set`, if it sets a class. -/
def Export.template : Export → Option ClassTemplate
  | .function _ _ _ => none
  | .constructor _ tmpl => some tmpl

/-- The constructor templates exported so far, in the order of the calls. -/
def ModuleState.templates (st : ModuleState) : List ClassTemplate :=
  st.exports.filterMap Export.template

/-- The back-reference the specification asks of a constructor template: the
template of the always-first class has no static member `NBind`, and every
other template has one, set to the template of the always-first class. -/
def hasBackReference (cfg : Config) (t : ClassTemplate) : Prop :=
  if t.cls = cfg.nbindInstance then t.nbind = none
  else t.nbind = some (some cfg.nbindInstance)

/-! ## Example data -/

/-- Example values of the constants: markers at two distinct addresses, both
shifts 16, and an `init()` that marks the class ready. -/
def exampleConfig : Config :=
  { emptyGetter := 1000
    emptySetter := 1001
    accessorSetterShift := 16
    overloadShift := 16
    nbindInstance := 1
    init := fun c => { c with ready := true } }

/-- Example setter entry `setX`, id 2. -/
def exampleSetX : MethodDef :=
  { name := { addr := 2000, chars := cstr "setX" }, num := 2,
    signature := some { type := .setter, caller := 22 } }

/-- Example getter entry `getX`, id 1. -/
def exampleGetX : MethodDef :=
  { name := { addr := 2010, chars := cstr "getX" }, num := 1,
    signature := some { type := .getter, caller := 11 } }

/-- Example method entry `move`, id 3. -/
def exampleMove : MethodDef :=
  { name := { addr := 2020, chars := cstr "move" }, num := 3,
    signature := some { type := .method, caller := 33 } }

/-- Example class `Point`, not yet ready. -/
def examplePoint : BindClass :=
  { name := cstr "Point", ready := false, methodList := [exampleSetX, exampleGetX, exampleMove],
    deleter := 44, wrapperConstructorNum := 5, wrapPtr := 55 }

/-- Example class `NBind`, not yet ready, with no members. -/
def exampleNBind : BindClass :=
  { name := cstr "NBind", ready := false, methodList := [],
    deleter := 66, wrapperConstructorNum := 0, wrapPtr := 77 }

/-- Example classes behind the pointers: `NBind` at 1, `Point` elsewhere. -/
def exampleClasses : Nat → BindClass :=
  fun p => if p = 1 then exampleNBind else examplePoint

/-- Example registration: the class goes to the front of the list. -/
def exampleRegisterClass (classList : List (Option Nat)) (p : Nat) : List (Option Nat) :=
  some p :: classList

/-- Example empty-getter marker: no signature, and the name `emptyGetter` of
the example constants. -/
def exampleEmptyGetter : MethodDef :=
  { name := { addr := 1000, chars := [] }, num := 0, signature := none }

/-- Example values of the constants in which the names `emptyGetter` and
`emptySetter` are one address, as for two pointers to one merged string
literal; the rest is as in `exampleConfig`. -/
def exampleSharedConfig : Config :=
  { emptyGetter := 1000
    emptySetter := 1000
    accessorSetterShift := 16
    overloadShift := 16
    nbindInstance := 1
    init := fun c => { c with ready := true } }

/-! ## Lemmas on strings -/

theorem drop_eq_charAt_cons (name : List Nat) (i : Nat) (h : i < strlen name) :
    name.drop i = charAt name i :: name.drop (i + 1) := by
  unfold strlen at h
  unfold charAt
  rw [List.drop_eq_getElem_cons h]
  simp [List.getD_eq_getElem?_getD, List.getElem?_eq_getElem h]

theorem stripGetterPrefix_of_get (name : List Nat) (nameBuf : Option (List Nat))
    (allocOk : Bool) (hlen : 3 < strlen name) (hget : hasGetPrefix name) :
    stripGetterPrefix name nameBuf allocOk =
      if charAt name 3 = 95 then (.inName 4, nameBuf)
      else if 97 ≤ charAt name 3 ∧ charAt name 3 ≤ 122 then (.inName 3, nameBuf)
      else if 65 ≤ charAt name 3 ∧ charAt name 3 ≤ 90 then
        if 65 ≤ charAt name 4 ∧ charAt name 4 ≤ 90 then (.inName 3, nameBuf)
        else
          match strdup allocOk (name.drop 3) with
          | some buf => (.inBuf, some (buf.set 0 (toChar (charAt name 3 + 32))))
          | none => (.inName 0, none)
      else (.inName 0, nameBuf) := by
  obtain ⟨h0, h1, h2⟩ := hget
  simp only [Char.reduceToNat] at h0 h1 h2
  have hcond : ¬ (strlen name ≤ 3 ∨ (charAt name 0 ≠ 71 ∧ charAt name 0 ≠ 103) ∨
      charAt name 1 ≠ 101 ∨ charAt name 2 ≠ 116) := by
    rintro (h | h | h | h)
    · omega
    · omega
    · exact h h1
    · exact h h2
  unfold stripGetterPrefix
  simp only [Char.reduceToNat]
  rw [if_neg hcond]

/-! ## `stripGetterPrefix`: the name normaliser -/

/-- C1: a name longer than 3 characters with a `get`/`Get` prefix, an uppercase
4th character and a 5th character that is not uppercase (or absent) is
returned, when the allocation succeeds, as the remainder from the 4th
character with its first character replaced by the corresponding lowercase
letter and all later characters unchanged; the result is held in `nameBuf`. -/
theorem stripGetterPrefix_lowercase (name : List Nat) (nameBuf : Option (List Nat))
    (hlen : 3 < strlen name) (hget : hasGetPrefix name)
    (hU : isUpper (charAt name 3)) (hN : ¬ isUpper (charAt name 4)) :
    stripGetterPrefix name nameBuf true
        = (.inBuf, some (lowerOf (charAt name 3) :: name.drop 4)) ∧
      strippedName name nameBuf true = lowerOf (charAt name 3) :: name.drop 4 ∧
      isLower (lowerOf (charAt name 3)) ∧
      strippedName (cstr "getFoo") none true = cstr "foo" ∧
      strippedName (cstr "getX") none true = cstr "x" := by
  have hstrip : stripGetterPrefix name nameBuf true
      = (.inBuf, some (lowerOf (charAt name 3) :: name.drop 4)) := by
    obtain ⟨h0, h1, h2⟩ := hget
    have hU2 := hU
    have hN2 := hN
    unfold isUpper at hU2 hN2
    simp only [Char.reduceToNat] at hU2 hN2 h0 h1 h2
    have hc : charAt name 3 ≠ 95 := by omega
    have hl : ¬ (97 ≤ charAt name 3 ∧ charAt name 3 ≤ 122) := by omega
    have h0a : ¬ (charAt name 0 ≠ 71 ∧ charAt name 0 ≠ 103) := by omega
    have hdrop := drop_eq_charAt_cons name 3 hlen
    have hcond : ¬ (strlen name ≤ 3 ∨ (charAt name 0 ≠ 71 ∧ charAt name 0 ≠ 103) ∨
        charAt name 1 ≠ 101 ∨ charAt name 2 ≠ 116) := by
      rintro (h | h | h | h)
      · omega
      · exact h0a h
      · exact h h1
      · exact h h2
    unfold stripGetterPrefix
    simp only [Char.reduceToNat]
    rw [if_neg hcond]
    simp only [if_neg hc, if_neg hl, if_pos hU2, if_neg hN2, strdup, if_true, hdrop,
      List.set_cons_zero]
    have : toChar (charAt name 3 + (97 - 65)) = lowerOf (charAt name 3) := by
      unfold toChar lowerOf
      simp only [Char.reduceToNat]
      omega
    rw [this]
  refine ⟨hstrip, ?_, ?_, by decide, by decide⟩
  · unfold strippedName
    rw [hstrip]
    rfl
  · unfold isUpper at hU
    unfold isLower lowerOf
    simp only [Char.reduceToNat] at hU ⊢
    omega

/-- C1, at a concrete name: `"GetValue"` gives `"value"`. -/
theorem stripGetterPrefix_lowercase_witness :
    strippedName (cstr "GetValue") none true = cstr "value" :=
  (stripGetterPrefix_lowercase (cstr "GetValue") none (by decide) (by decide) (by decide)
    (by decide)).2.1

/-- C2: a name of length at most 3, or whose first character is neither `g`
nor `G`, or whose second character is not `e`, or whose third character is not
`t`, is returned as it is (the pointer `name` itself), whatever the allocator
does, and `nameBuf` is left as it was. -/
theorem stripGetterPrefix_unchanged (name : List Nat) (nameBuf : Option (List Nat))
    (allocOk : Bool)
    (h : strlen name ≤ 3 ∨ (charAt name 0 ≠ 'g'.toNat ∧ charAt name 0 ≠ 'G'.toNat) ∨
      charAt name 1 ≠ 'e'.toNat ∨ charAt name 2 ≠ 't'.toNat) :
    stripGetterPrefix name nameBuf allocOk = (.inName 0, nameBuf) ∧
      strippedName name nameBuf allocOk = name ∧
      strippedName (cstr "get") none allocOk = cstr "get" ∧
      strippedName (cstr "GEt_foo") none allocOk = cstr "GEt_foo" ∧
      strippedName (cstr "setFoo") none allocOk = cstr "setFoo" := by
  have hstrip : stripGetterPrefix name nameBuf allocOk = (.inName 0, nameBuf) := by
    simp only [Char.reduceToNat] at h
    have hcond : strlen name ≤ 3 ∨ (charAt name 0 ≠ 71 ∧ charAt name 0 ≠ 103) ∨
        charAt name 1 ≠ 101 ∨ charAt name 2 ≠ 116 := by
      rcases h with h | h | h | h
      · exact Or.inl h
      · exact Or.inr (Or.inl ⟨h.2, h.1⟩)
      · exact Or.inr (Or.inr (Or.inl h))
      · exact Or.inr (Or.inr (Or.inr h))
    unfold stripGetterPrefix
    simp only [Char.reduceToNat]
    rw [if_pos hcond]
  refine ⟨hstrip, ?_, ?_, ?_, ?_⟩
  · unfold strippedName
    rw [hstrip]
    simp [deref]
  all_goals cases allocOk <;> decide

/-- C2, at a concrete name: `"gotFoo"` is returned as it is when the allocator
fails. -/
theorem stripGetterPrefix_unchanged_witness :
    strippedName (cstr "gotFoo") none false = cstr "gotFoo" :=
  (stripGetterPrefix_unchanged (cstr "gotFoo") none false (by decide)).2.1

/-- C3: for a name longer than 3 characters with a `get`/`Get` prefix, a 4th
character `_` makes the result the name without its first 4 characters
(`name + 4`, possibly empty), and a lowercase 4th character makes it the name
without its first 3 characters (`name + 3`); the result points into the name
itself, so no character of the remainder is altered, and `nameBuf` is left as
it was. -/
theorem stripGetterPrefix_underscore_or_lower (name : List Nat)
    (nameBuf : Option (List Nat)) (allocOk : Bool)
    (hlen : 3 < strlen name) (hget : hasGetPrefix name) :
    (charAt name 3 = '_'.toNat →
        stripGetterPrefix name nameBuf allocOk = (.inName 4, nameBuf) ∧
        strippedName name nameBuf allocOk = name.drop 4) ∧
      (isLower (charAt name 3) →
        stripGetterPrefix name nameBuf allocOk = (.inName 3, nameBuf) ∧
        strippedName name nameBuf allocOk = name.drop 3) ∧
      strippedName (cstr "get_") none allocOk = [] ∧
      strippedName (cstr "Get_foo") none allocOk = cstr "foo" ∧
      strippedName (cstr "getfoo") none allocOk = cstr "foo" := by
  have hred := stripGetterPrefix_of_get name nameBuf allocOk hlen hget
  refine ⟨?_, ?_, ?_, ?_, ?_⟩
  · intro hc
    simp only [Char.reduceToNat] at hc
    have hstrip : stripGetterPrefix name nameBuf allocOk = (.inName 4, nameBuf) := by
      rw [hred, if_pos hc]
    refine ⟨hstrip, ?_⟩
    unfold strippedName
    rw [hstrip]
    rfl
  · intro hl
    unfold isLower at hl
    simp only [Char.reduceToNat] at hl
    have hc : charAt name 3 ≠ 95 := by omega
    have hstrip : stripGetterPrefix name nameBuf allocOk = (.inName 3, nameBuf) := by
      rw [hred, if_neg hc, if_pos hl]
    refine ⟨hstrip, ?_⟩
    unfold strippedName
    rw [hstrip]
    rfl
  all_goals cases allocOk <;> decide

/-- C3, at concrete names: `"get_x"` gives `"x"` and `"Getvalue"` gives
`"value"`. -/
theorem stripGetterPrefix_underscore_or_lower_witness :
    strippedName (cstr "get_x") none true = cstr "x" ∧
      strippedName (cstr "Getvalue") (some (cstr "old")) false = cstr "value" :=
  ⟨((stripGetterPrefix_underscore_or_lower (cstr "get_x") none true (by decide)
      (by decide)).1 (by decide)).2,
   ((stripGetterPrefix_underscore_or_lower (cstr "Getvalue") (some (cstr "old")) false
      (by decide) (by decide)).2.1 (by decide)).2⟩

/-- C4: for a name longer than 3 characters with a `get`/`Get` prefix whose 4th
and 5th characters are both uppercase letters, the result is the remainder
from the 4th character (`name + 3`), pointing into the name itself: no
character is lowercased and `nameBuf` is left as it was. -/
theorem stripGetterPrefix_acronym (name : List Nat) (nameBuf : Option (List Nat))
    (allocOk : Bool) (hlen : 3 < strlen name) (hget : hasGetPrefix name)
    (hU : isUpper (charAt name 3)) (hU4 : isUpper (charAt name 4)) :
    stripGetterPrefix name nameBuf allocOk = (.inName 3, nameBuf) ∧
      strippedName name nameBuf allocOk = name.drop 3 ∧
      strippedName (cstr "getFOO") none allocOk = cstr "FOO" ∧
      strippedName (cstr "GetFOOBar") none allocOk = cstr "FOOBar" := by
  have hred := stripGetterPrefix_of_get name nameBuf allocOk hlen hget
  unfold isUpper at hU hU4
  simp only [Char.reduceToNat] at hU hU4
  have hc : charAt name 3 ≠ 95 := by omega
  have hl : ¬ (97 ≤ charAt name 3 ∧ charAt name 3 ≤ 122) := by omega
  have hstrip : stripGetterPrefix name nameBuf allocOk = (.inName 3, nameBuf) := by
    rw [hred, if_neg hc, if_neg hl, if_pos hU, if_pos hU4]
  refine ⟨hstrip, ?_, ?_, ?_⟩
  · unfold strippedName
    rw [hstrip]
    rfl
  all_goals cases allocOk <;> decide

/-- C4, at a concrete name: `"getURLPath"` gives `"URLPath"`. -/
theorem stripGetterPrefix_acronym_witness :
    strippedName (cstr "getURLPath") none true = cstr "URLPath" :=
  (stripGetterPrefix_acronym (cstr "getURLPath") none true (by decide) (by decide)
    (by decide) (by decide)).2.1

/-! ## `NBindID::toString`: the display string -/

theorem and15_lt (k : Nat) : k &&& 15 < 16 :=
  Nat.lt_succ_of_le Nat.and_le_right

theorem alphabet_digit :
    ∀ d, d < 16 → charAt alphabet d ≠ 0 ∧ charAt alphabet d ∈ alphabet ∧
      hexDigitValue (charAt alphabet d) = some d := by
  decide

theorem hexDigits_length (n k : Nat) : (hexDigits n k).length = n := by
  induction n generalizing k with
  | zero => rfl
  | succ n ih => simp [hexDigits, ih]

theorem hexDigits_mem (n k c : Nat) (h : c ∈ hexDigits n k) : c ≠ 0 ∧ c ∈ alphabet := by
  induction n generalizing k with
  | zero => simp [hexDigits] at h
  | succ n ih =>
    simp only [hexDigits, List.mem_append, List.mem_singleton] at h
    rcases h with h | h
    · exact ih _ h
    · subst h
      exact ⟨(alphabet_digit _ (and15_lt k)).1, (alphabet_digit _ (and15_lt k)).2.1⟩

theorem hexLoop_eq (pos code : Nat) (buf : List Nat) (h : pos ≤ buf.length) :
    hexLoop pos code buf = hexDigits pos code ++ buf.drop pos := by
  induction pos generalizing code buf with
  | zero => simp [hexLoop, hexDigits]
  | succ pos ih =>
    have hlt : pos < buf.length := h
    have hlen : pos ≤ (buf.set pos (charAt alphabet (code &&& 15))).length := by
      simp only [List.length_set]; omega
    have hlt2 : pos < (buf.set pos (charAt alphabet (code &&& 15))).length := by
      simp only [List.length_set]; exact hlt
    rw [hexLoop, ih _ _ hlen, hexDigits, List.append_assoc, List.drop_eq_getElem_cons hlt2]
    simp [List.drop_set_of_lt _ _ (Nat.lt_succ_self pos)]
theorem stringOf_append_nul (l rest : List Nat) (h : ∀ c ∈ l, c ≠ 0) :
    stringOf (l ++ 0 :: rest) = l := by
  induction l with
  | nil => simp [stringOf]
  | cons a l ih =>
    have ha : a ≠ 0 := h a (List.mem_cons_self a l)
    have hl : ∀ c ∈ l, c ≠ 0 := fun c hc => h c (List.mem_cons_of_mem a hc)
    have := ih hl
    unfold stringOf at this ⊢
    rw [List.cons_append, List.takeWhile_cons]
    simp only [ha, ne_eq, not_false_eq_true, decide_True, if_true]
    rw [this]

theorem hexDigits_getD (n k i : Nat) (h : i < n) :
    (hexDigits n k).getD i 0 = charAt alphabet ((k >>> (4 * (n - 1 - i))) &&& 15) := by
  induction n generalizing k with
  | zero => omega
  | succ n ih =>
    rw [hexDigits]
    by_cases hi : i < n
    · rw [List.getD_append _ _ _ _ (by rw [hexDigits_length]; exact hi), ih _ hi,
        ← Nat.shiftRight_add]
      congr 3
      omega
    · have hin : i = n := by omega
      subst hin
      rw [List.getD_append_right _ _ _ _ (by rw [hexDigits_length]), hexDigits_length]
      simp

theorem readHex_hexDigits (n k : Nat) : readHex (hexDigits n k) = some (k % 16 ^ n) := by
  induction n generalizing k with
  | zero => simp [readHex, hexDigits, Nat.mod_one]
  | succ n ih =>
    have h := ih (k >>> 4)
    unfold readHex at h ⊢
    rw [hexDigits, List.foldl_append, h]
    simp only [List.foldl_cons, List.foldl_nil, Option.some_bind,
      (alphabet_digit _ (and15_lt k)).2.2, Option.map_some']
    congr 1
    have h15 : k &&& 15 = k % 16 := Nat.and_pow_two_sub_one_eq_mod k 4
    have h4 : k >>> 4 = k / 16 := by rw [Nat.shiftRight_eq_div_pow]
    rw [h15, h4, pow_succ', Nat.mod_mul]
    ring

/-- The array built by a computing call of `toString`: the digits, then NUL. -/
theorem toString_buffer (sz : Nat) (fresh : Nat → Nat) (code : Nat) :
    hexLoop (sz * 2) code (((List.range (sz * 2 + 1)).map fresh).set (sz * 2) 0)
      = hexDigits (sz * 2) code ++ [0] := by
  rw [hexLoop_eq _ _ _ (by simp)]
  congr 1
  apply List.ext_getElem
  · simp
  · intro i h1 h2
    simp at h2
    subst h2
    simp

theorem toString_new (sz addr : Nat) (fresh : Nat → Nat) (k : Nat)
    (hsz : sz * 2 < 2 ^ 32) (hk : k < 2 ^ (8 * sz)) :
    NBindID.toString sz addr fresh (NBindID.new k)
      = ({ addr := addr, chars := hexDigits (sz * 2) k },
         { id := k, name := some { addr := addr, chars := hexDigits (sz * 2) k } }) := by
  have hpos : (sz * 2) % 2 ^ 32 = sz * 2 := Nat.mod_eq_of_lt hsz
  have hcode : k % 2 ^ (8 * sz) = k := Nat.mod_eq_of_lt hk
  have hstr : stringOf (hexDigits (sz * 2) k ++ [0]) = hexDigits (sz * 2) k :=
    stringOf_append_nul _ [] (fun c hc => (hexDigits_mem _ _ c hc).1)
  simp only [NBindID.toString, NBindID.new, hpos, hcode, toString_buffer, hstr]

/-- C5: the first call of `toString` on an identity built from a key `k` of
`W = 8 * sizeof(TYPEID)` bits returns a string of exactly `W / 4` characters,
all of them digits of `"0123456789abcdef"`, whose character at position `i` is
the digit of `(k >> 4 * (W / 4 - 1 - i)) & 15`, so that reading the string as
a base-16 numeral gives `k` back; the string is stored in the object. -/
theorem toString_hex (sz addr : Nat) (fresh : Nat → Nat) (k : Nat)
    (hsz : sz * 2 < 2 ^ 32) (hk : k < 2 ^ (8 * sz)) :
    (NBindID.toString sz addr fresh (NBindID.new k)).1.chars.length = 8 * sz / 4 ∧
      (∀ c ∈ (NBindID.toString sz addr fresh (NBindID.new k)).1.chars, c ∈ alphabet) ∧
      (∀ i, i < 8 * sz / 4 →
        charAt (NBindID.toString sz addr fresh (NBindID.new k)).1.chars i
          = charAt alphabet ((k >>> (4 * (8 * sz / 4 - 1 - i))) &&& 15)) ∧
      readHex (NBindID.toString sz addr fresh (NBindID.new k)).1.chars = some k ∧
      (NBindID.toString sz addr fresh (NBindID.new k)).2.name
        = some (NBindID.toString sz addr fresh (NBindID.new k)).1 := by
  have hW : 8 * sz / 4 = sz * 2 := by omega
  rw [toString_new sz addr fresh k hsz hk, hW]
  refine ⟨hexDigits_length _ _, fun c hc => (hexDigits_mem _ _ c hc).2, ?_, ?_, rfl⟩
  · intro i hi
    exact hexDigits_getD _ _ _ hi
  · rw [readHex_hexDigits]
    have h16 : (16 : Nat) ^ (sz * 2) = 2 ^ (8 * sz) := by
      rw [show (16 : Nat) = 2 ^ 4 by norm_num, ← pow_mul]
      congr 1
      omega
    rw [h16, Nat.mod_eq_of_lt hk]

/-- C5, at a concrete key: with 4-byte keys, `0xdeadbeef` is displayed as
`"deadbeef"` and `0x1f` as `"0000001f"`. -/
theorem toString_hex_witness :
    (NBindID.toString 4 7 (fun _ => 1) (NBindID.new 0xdeadbeef)).1.chars = cstr "deadbeef" ∧
      readHex (NBindID.toString 4 7 (fun _ => 1) (NBindID.new 0x1f)).1.chars = some 0x1f :=
  ⟨by decide, (toString_hex 4 7 (fun _ => 1) 0x1f (by decide) (by decide)).2.2.2.1⟩

/-- C6: two calls of `toString` on the same identity return the identical
string, address and content: the first call leaves the string stored in the
object, and the second returns the stored string and leaves the object as it
is, whatever array a new allocation would have handed out. -/
theorem toString_twice (sz addr1 addr2 : Nat) (fresh1 fresh2 : Nat → Nat) (self : NBindID) :
    (NBindID.toString sz addr1 fresh1 self).2.name
        = some (NBindID.toString sz addr1 fresh1 self).1 ∧
      (NBindID.toString sz addr2 fresh2 (NBindID.toString sz addr1 fresh1 self).2).1
        = (NBindID.toString sz addr1 fresh1 self).1 ∧
      (NBindID.toString sz addr2 fresh2 (NBindID.toString sz addr1 fresh1 self).2).2
        = (NBindID.toString sz addr1 fresh1 self).2 := by
  cases hname : self.name with
  | some name => simp [NBindID.toString, hname]
  | none => simp [NBindID.toString, hname]

/-! ## `initModule`: the packed accessor identifier -/

/-- C8: both ids are recovered from the packed accessor identifier: for a
getter id `g` below `2 ^ K` and a setter id `s` below `2 ^ (32 - K)`, with
`K = accessorSetterShift` and 32-bit unsigned arithmetic, `p = (s << K) | g`
has `p mod 2 ^ K = g` and `p >> K = s`. -/
theorem packAccessor_recover (K s g : Nat) (hg : g < 2 ^ K) (hs : s < 2 ^ (32 - K)) :
    packAccessor K s g % 2 ^ K = g ∧ packAccessor K s g >>> K = s := by
  have hpos : 0 < 2 ^ K := by positivity
  have hmod : (s <<< K) % 2 ^ 32 = s <<< K := by
    apply Nat.mod_eq_of_lt
    rw [Nat.shiftLeft_eq]
    by_cases hK : K ≤ 32
    · calc s * 2 ^ K < 2 ^ (32 - K) * 2 ^ K := Nat.mul_lt_mul_of_pos_right hs hpos
        _ = 2 ^ 32 := by rw [← pow_add]; congr 1; omega
    · have h0 : 32 - K = 0 := by omega
      rw [h0] at hs
      have hs0 : s = 0 := by omega
      subst hs0
      simp
  have hor : (s <<< K) ||| g = s <<< K + g := by
    rw [Nat.shiftLeft_eq, Nat.mul_comm]
    exact (Nat.mul_add_lt_is_or hg s).symm
  unfold packAccessor
  rw [hmod, hor, Nat.shiftLeft_eq, Nat.shiftRight_eq_div_pow]
  constructor
  · rw [Nat.mul_add_mod_of_lt hg]
  · rw [Nat.add_comm, Nat.add_mul_div_right _ _ hpos, Nat.div_eq_of_lt hg, Nat.zero_add]

/-- C8, at the ids of the scenario: with a shift of 16, `getX` of id 1 and
`setX` of id 2 are packed as `(2 << 16) | 1`; a read recovers 1 and a write 2. -/
theorem packAccessor_recover_witness :
    packAccessor 16 2 1 = 131073 ∧ packAccessor 16 2 1 % 2 ^ 16 = 1 ∧
      packAccessor 16 2 1 >>> 16 = 2 :=
  ⟨by decide, packAccessor_recover 16 2 1 (by decide) (by decide)⟩

/-! ## `initModule`: the walk of a method list -/

theorem strippedName_nameBuf (name : List Nat) (nameBuf : Option (List Nat)) (allocOk : Bool) :
    strippedName name nameBuf allocOk = strippedName name none allocOk := by
  unfold strippedName stripGetterPrefix
  cases allocOk <;> simp only [strdup] <;> split_ifs <;> simp [deref]

theorem walkMethods_append (cfg : Config) (alloc : Nat → Bool) (i : Nat) (st : WalkState)
    (xs ys : List MethodDef) :
    walkMethods cfg alloc i st (xs ++ ys)
      = walkMethods cfg alloc (i + xs.length) (walkMethods cfg alloc i st xs) ys := by
  induction xs generalizing i st with
  | nil => simp [walkMethods]
  | cons x xs ih =>
    show walkMethods cfg alloc (i + 1) (methodStep cfg (alloc i) st x) (xs ++ ys)
      = walkMethods cfg alloc (i + (xs.length + 1))
          (walkMethods cfg alloc (i + 1) (methodStep cfg (alloc i) st x) xs) ys
    rw [ih]
    congr 1
    omega

theorem walkMethods_snoc (cfg : Config) (alloc : Nat → Bool) (pre : List MethodDef)
    (m : MethodDef) :
    walkMethods cfg alloc 0 WalkState.start (pre ++ [m])
      = methodStep cfg (alloc pre.length) (walkMethods cfg alloc 0 WalkState.start pre) m := by
  rw [walkMethods_append]
  simp [walkMethods]

theorem methodStep_members_extend (cfg : Config) (allocOk : Bool) (st : WalkState)
    (m : MethodDef) : st.members <+: (methodStep cfg allocOk st m).members := by
  cases hs : m.signature with
  | none =>
    simp only [methodStep, hs]
    split_ifs <;> exact List.prefix_refl _
  | some signature =>
    cases ht : signature.type <;> simp only [methodStep, hs, ht] <;>
      first | exact List.prefix_refl _ | exact List.prefix_append _ _

theorem walkMethods_members_extend (cfg : Config) (alloc : Nat → Bool) (i : Nat)
    (st : WalkState) (ms : List MethodDef) :
    st.members <+: (walkMethods cfg alloc i st ms).members := by
  induction ms generalizing i st with
  | nil => exact List.prefix_refl _
  | cons m ms ih =>
    exact List.IsPrefix.trans (methodStep_members_extend cfg (alloc i) st m) (ih _ _)

theorem pendingSetter_snoc (cfg : Config) (pre : List MethodDef) (m : MethodDef) :
    pendingSetter cfg (pre ++ [m]) =
      if m.hasRole .setter then some m
      else if isEmptySetterMarker cfg m then none
      else pendingSetter cfg pre := by
  unfold pendingSetter
  rw [List.reverse_append, List.reverse_singleton, List.singleton_append, List.find?_cons]
  by_cases h1 : m.hasRole .setter = true
  · simp [h1]
  · by_cases h2 : isEmptySetterMarker cfg m = true
    · simp [h1, h2]
    · simp [h1, h2]

theorem methodStep_setter (cfg : Config) (allocOk : Bool) (st : WalkState) (m : MethodDef) :
    (methodStep cfg allocOk st m).setter =
        (if m.hasRole .setter then m.caller
         else if isEmptySetterMarker cfg m then 0 else st.setter) ∧
      (methodStep cfg allocOk st m).setterNum =
        (if m.hasRole .setter then m.num
         else if isEmptySetterMarker cfg m then 0 else st.setterNum) := by
  cases hs : m.signature with
  | none =>
    simp only [methodStep, MethodDef.hasRole, isEmptySetterMarker, hs]
    split_ifs <;> simp_all
  | some signature =>
    cases ht : signature.type <;>
      simp [methodStep, MethodDef.hasRole, MethodDef.caller, isEmptySetterMarker, hs, ht]

theorem walkMethods_setter (cfg : Config) (alloc : Nat → Bool) (pre : List MethodDef) :
    (walkMethods cfg alloc 0 WalkState.start pre).setter = pendingSetterCaller cfg pre ∧
      (walkMethods cfg alloc 0 WalkState.start pre).setterNum = pendingSetterNum cfg pre := by
  induction pre using List.reverseRecOn with
  | nil => simp [walkMethods, WalkState.start, pendingSetterCaller, pendingSetterNum, pendingSetter]
  | append_singleton pre m ih =>
    rw [walkMethods_snoc]
    have hstep := methodStep_setter cfg (alloc pre.length)
      (walkMethods cfg alloc 0 WalkState.start pre) m
    rw [hstep.1, hstep.2, ih.1, ih.2]
    unfold pendingSetterCaller pendingSetterNum
    rw [pendingSetter_snoc]
    by_cases h1 : m.hasRole .setter = true
    · simp [h1]
    · by_cases h2 : isEmptySetterMarker cfg m = true
      · simp [h1, h2]
      · simp [h1, h2]

theorem methodStep_getter (cfg : Config) (allocOk : Bool) (st : WalkState) (g : MethodDef)
    (hg : g.hasRole .getter = true) :
    (methodStep cfg allocOk st g).members = st.members ++
      [Member.accessor (strippedName g.name.chars none allocOk) g.caller st.setter
        (packAccessor cfg.accessorSetterShift st.setterNum g.num)] := by
  cases hs : g.signature with
  | none => simp [MethodDef.hasRole, hs] at hg
  | some signature =>
    have ht : signature.type = .getter := by simpa [MethodDef.hasRole, hs] using hg
    simp only [methodStep, hs, ht, MethodDef.caller]
    rw [← strippedName_nameBuf g.name.chars st.nameBuf allocOk]
    rfl

theorem pendingSetter_append (cfg : Config) (pre mid : List MethodDef)
    (h : ∀ m ∈ mid, m.hasRole .setter = false ∧ isEmptySetterMarker cfg m = false) :
    pendingSetter cfg (pre ++ mid) = pendingSetter cfg pre := by
  induction mid using List.reverseRecOn with
  | nil => simp
  | append_singleton mid m ih =>
    have hm := h m (by simp)
    rw [← List.append_assoc, pendingSetter_snoc, hm.1, hm.2]
    simp only [Bool.false_eq_true, if_false]
    exact ih (fun x hx => h x (by simp [hx]))

theorem getter_not_setter (cfg : Config) (g : MethodDef) (hg : g.hasRole .getter = true) :
    g.hasRole .setter = false ∧ isEmptySetterMarker cfg g = false := by
  cases hs : g.signature with
  | none => simp [MethodDef.hasRole, hs] at hg
  | some signature =>
    have ht : signature.type = .getter := by simpa [MethodDef.hasRole, hs] using hg
    simp [MethodDef.hasRole, isEmptySetterMarker, hs, ht]

/-- C7: in the walk of a method list, a getter-role entry `g` coming after the
entries `pre` sets exactly one member, an accessor: its name is what
`stripGetterPrefix` returns for the raw name (a string that does not depend on
what `nameBuf` held before), its getter is the caller of `g`, its setter is the
pending setter (the caller of the most recent setter-role entry of `pre` with
no empty-setter marker after it, `nullptr` if there is none) and its tag is
`(setterNum << accessorSetterShift) | getterNum` with the pending setter's id,
or 0, as `setterNum`; the accessor stays in place whatever entries follow; and
the getter does not consume the pending setter: a later getter `g2`, with
neither a setter nor an empty-setter marker in between, gets the same setter
and setter id. -/
theorem getter_accessor (cfg : Config) (alloc : Nat → Bool) (pre : List MethodDef)
    (g : MethodDef) (hg : g.hasRole .getter = true) :
    exposedMembers cfg alloc (pre ++ [g]) = exposedMembers cfg alloc pre ++
        [Member.accessor (strippedName g.name.chars none (alloc pre.length)) g.caller
          (pendingSetterCaller cfg pre)
          (packAccessor cfg.accessorSetterShift (pendingSetterNum cfg pre) g.num)] ∧
      (∀ post, exposedMembers cfg alloc (pre ++ [g]) <+:
        exposedMembers cfg alloc (pre ++ [g] ++ post)) ∧
      (∀ mid g2, g2.hasRole .getter = true →
        (∀ m ∈ mid, m.hasRole .setter = false ∧ isEmptySetterMarker cfg m = false) →
        exposedMembers cfg alloc (pre ++ [g] ++ mid ++ [g2])
          = exposedMembers cfg alloc (pre ++ [g] ++ mid) ++
            [Member.accessor
              (strippedName g2.name.chars none (alloc (pre ++ [g] ++ mid).length)) g2.caller
              (pendingSetterCaller cfg pre)
              (packAccessor cfg.accessorSetterShift (pendingSetterNum cfg pre) g2.num)]) := by
  have key : ∀ (l : List MethodDef) (x : MethodDef), x.hasRole .getter = true →
      exposedMembers cfg alloc (l ++ [x]) = exposedMembers cfg alloc l ++
        [Member.accessor (strippedName x.name.chars none (alloc l.length)) x.caller
          (pendingSetterCaller cfg l)
          (packAccessor cfg.accessorSetterShift (pendingSetterNum cfg l) x.num)] := by
    intro l x hx
    unfold exposedMembers
    rw [walkMethods_snoc, methodStep_getter cfg _ _ x hx, (walkMethods_setter cfg alloc l).1,
      (walkMethods_setter cfg alloc l).2]
  refine ⟨key pre g hg, ?_, ?_⟩
  · intro post
    unfold exposedMembers
    rw [walkMethods_append cfg alloc 0 _ (pre ++ [g]) post]
    exact walkMethods_members_extend _ _ _ _ _
  · intro mid g2 hg2 hmid
    have hsame : pendingSetter cfg (pre ++ [g] ++ mid) = pendingSetter cfg pre := by
      rw [List.append_assoc]
      apply pendingSetter_append
      intro m hm
      rcases List.mem_append.1 hm with h | h
      · rw [List.mem_singleton.1 h]
        exact getter_not_setter cfg g hg
      · exact hmid m h
    have h := key (pre ++ [g] ++ mid) g2 hg2
    unfold pendingSetterCaller pendingSetterNum at h ⊢
    rw [hsame] at h
    exact h

/-- C7, at a concrete list: after `setX` (id 2, caller 22), the getter `getX`
(id 1, caller 11) sets the accessor `x` with getter 11, setter 22 and tag
`(2 << 16) | 1`. -/
theorem getter_accessor_witness :
    exposedMembers exampleConfig (fun _ => true) ([exampleSetX] ++ [exampleGetX])
      = [Member.accessor (cstr "x") 11 22 131073] :=
  (getter_accessor exampleConfig (fun _ => true) [exampleSetX] exampleGetX (by decide)).1.trans
    (by decide)

theorem methodStep_exposure (cfg : Config) (allocOk : Bool) (st : WalkState) (m : MethodDef) :
    (methodStep cfg allocOk st m).members.map Member.exposure
      = st.members.map Member.exposure ++ (expectedExposure m).toList := by
  cases hs : m.signature with
  | none =>
    simp only [methodStep, expectedExposure, MethodDef.hasRole, hs, Bool.false_eq_true,
      if_false, Option.toList, List.append_nil]
    split_ifs <;> rfl
  | some signature =>
    cases ht : signature.type <;>
      simp [methodStep, expectedExposure, MethodDef.hasRole, MethodDef.caller,
        Member.exposure, hs, ht]

theorem walkMethods_exposure (cfg : Config) (alloc : Nat → Bool) (i : Nat) (st : WalkState)
    (ms : List MethodDef) :
    (walkMethods cfg alloc i st ms).members.map Member.exposure
      = st.members.map Member.exposure ++ ms.filterMap expectedExposure := by
  induction ms generalizing i st with
  | nil => simp [walkMethods]
  | cons m ms ih =>
    rw [walkMethods, ih, methodStep_exposure, List.append_assoc]
    congr 1
    cases h : expectedExposure m <;> simp [List.filterMap_cons, h]

/-- C10: the members set from a method list are, in the order of the list,
one instance-callable (prototype) entry per method-role entry and one
class-level (static) callable per free-function-role entry, each under the raw
name and with the caller and id of its entry, and one accessor per getter-role
entry; constructor-role entries, setter-role entries and entries without a
signature set no member. -/
theorem exposedMembers_exposure (cfg : Config) (alloc : Nat → Bool) (ms : List MethodDef) :
    (exposedMembers cfg alloc ms).map Member.exposure = ms.filterMap expectedExposure ∧
      (∀ m, m.hasRole .construct = true ∨ m.hasRole .setter = true ∨ m.signature = none →
        expectedExposure m = none) := by
  constructor
  · unfold exposedMembers
    rw [walkMethods_exposure]
    simp [WalkState.start]
  · intro m hm
    cases hs : m.signature with
    | none => simp [expectedExposure, MethodDef.hasRole, hs]
    | some signature =>
      rcases hm with h | h | h
      · have ht : signature.type = .construct := by simpa [MethodDef.hasRole, hs] using h
        simp [expectedExposure, MethodDef.hasRole, hs, ht]
      · have ht : signature.type = .setter := by simpa [MethodDef.hasRole, hs] using h
        simp [expectedExposure, MethodDef.hasRole, hs, ht]
      · rw [hs] at h
        cases h

/-- C10, at a concrete list: `setX`, `getX`, `move` give the accessor of `getX`
and the instance-callable `move`, in this order. -/
theorem exposedMembers_exposure_witness :
    (exposedMembers exampleConfig (fun _ => true) examplePoint.methodList).map Member.exposure
      = [Exposure.accessor 11, Exposure.instanceCallable (cstr "move") 33 3] :=
  (exposedMembers_exposure exampleConfig (fun _ => true) examplePoint.methodList).1.trans
    (by decide)

/-! ## `initModule`: the walk of the class list -/

theorem classStep_skip (cfg : Config) (alloc : Nat → Nat → Bool) (i : Nat) (st : ModuleState)
    (slot : Option Nat)
    (h : slot = none ∨ ∃ p, slot = some p ∧ (st.classes p).ready = true) :
    classStep cfg alloc i st slot = (st, none) := by
  rcases h with h | ⟨p, h, hr⟩
  · subst h
    rfl
  · subst h
    simp [classStep, hr]

theorem classStep_init (cfg : Config) (alloc : Nat → Nat → Bool) (i : Nat) (st : ModuleState)
    (p : Nat) (hr : (st.classes p).ready = false) :
    (classStep cfg alloc i st (some p)).1.inits = st.inits ++ [(i, p)] ∧
      (classStep cfg alloc i st (some p)).1.classes
        = (fun q => if q = p then cfg.init (st.classes p) else st.classes q) ∧
      (classStep cfg alloc i st (some p)).2 = some p := by
  simp [classStep, hr]

theorem walkClasses_cons (cfg : Config) (alloc : Nat → Nat → Bool) (i : Nat)
    (st : ModuleState) (slot : Option Nat) (rest : List (Option Nat)) :
    (walkClasses cfg alloc i st (slot :: rest)).1
      = (walkClasses cfg alloc (i + 1) (classStep cfg alloc i st slot).1 rest).1 := rfl

theorem walkClasses_inits (cfg : Config) (alloc : Nat → Nat → Bool)
    (hinit : ∀ c, (cfg.init c).ready = true) (classList : List (Option Nat)) :
    ∀ (i : Nat) (st : ModuleState), ∃ new,
      (walkClasses cfg alloc i st classList).1.inits = st.inits ++ new ∧
      (new.map Prod.snd).Nodup ∧
      ∀ j p, (j, p) ∈ new ↔ ∃ k, j = i + k ∧ classList[k]? = some (some p) ∧
        some p ∉ classList.take k ∧ (st.classes p).ready = false := by
  induction classList with
  | nil =>
    intro i st
    exact ⟨[], by simp [walkClasses], by simp, by simp⟩
  | cons slot rest ih =>
    intro i st
    rw [walkClasses_cons]
    by_cases hskip : slot = none ∨ ∃ p, slot = some p ∧ (st.classes p).ready = true
    · rw [classStep_skip cfg alloc i st slot hskip]
      obtain ⟨new, hnew, hnd, hmem⟩ := ih (i + 1) st
      refine ⟨new, hnew, hnd, ?_⟩
      intro j q
      rw [hmem]
      constructor
      · rintro ⟨k, hj, hk, hnot, hr⟩
        refine ⟨k + 1, by omega, by simpa using hk, ?_, hr⟩
        rw [List.take_succ_cons, List.mem_cons, not_or]
        refine ⟨?_, hnot⟩
        intro hq
        rcases hskip with h | ⟨p, h, hp⟩
        · rw [h] at hq
          cases hq
        · rw [h] at hq
          cases hq
          rw [hp] at hr
          cases hr
      · rintro ⟨k, hj, hk, hnot, hr⟩
        cases k with
        | zero =>
          exfalso
          simp only [List.getElem?_cons_zero, Option.some.injEq] at hk
          rcases hskip with h | ⟨p, h, hp⟩
          · rw [h] at hk
            cases hk
          · rw [h] at hk
            cases hk
            rw [hp] at hr
            cases hr
        | succ k =>
          rw [List.take_succ_cons, List.mem_cons, not_or] at hnot
          exact ⟨k, by omega, by simpa using hk, hnot.2, hr⟩
    · have hslot : ∃ p, slot = some p ∧ (st.classes p).ready = false := by
        cases slot with
        | none => exact absurd (Or.inl rfl) hskip
        | some p =>
          refine ⟨p, rfl, ?_⟩
          cases hr : (st.classes p).ready with
          | false => rfl
          | true => exact absurd (Or.inr ⟨p, rfl, hr⟩) hskip
      obtain ⟨p, hp, hr⟩ := hslot
      subst hp
      obtain ⟨hin, hcl, -⟩ := classStep_init cfg alloc i st p hr
      obtain ⟨new, hnew, hnd, hmem⟩ := ih (i + 1) (classStep cfg alloc i st (some p)).1
      have hready : ∀ q, ((classStep cfg alloc i st (some p)).1.classes q).ready = false ↔
          q ≠ p ∧ (st.classes q).ready = false := by
        intro q
        rw [hcl]
        by_cases hq : q = p
        · simp [hq, hinit]
        · simp [hq]
      refine ⟨(i, p) :: new, ?_, ?_, ?_⟩
      · rw [hnew, hin, List.append_assoc, List.singleton_append]
      · rw [List.map_cons, List.nodup_cons]
        refine ⟨?_, hnd⟩
        intro hmemp
        obtain ⟨⟨j, q⟩, hjq, hq⟩ := List.mem_map.1 hmemp
        simp only at hq
        subst hq
        obtain ⟨k, -, -, -, hrq⟩ := (hmem j q).1 hjq
        exact ((hready q).1 hrq).1 rfl
      · intro j q
        rw [List.mem_cons, hmem]
        constructor
        · rintro (h | ⟨k, hj, hk, hnot, hrq⟩)
          · cases h
            exact ⟨0, by omega, by simp, by simp, hr⟩
          · have hq := (hready q).1 hrq
            refine ⟨k + 1, by omega, by simpa using hk, ?_, hq.2⟩
            rw [List.take_succ_cons, List.mem_cons, not_or]
            refine ⟨?_, hnot⟩
            intro h
            cases h
            exact hq.1 rfl
        · rintro ⟨k, hj, hk, hnot, hrq⟩
          cases k with
          | zero =>
            left
            simp only [List.getElem?_cons_zero, Option.some.injEq] at hk
            subst hk
            simp only [Nat.add_zero] at hj
            rw [hj]
          | succ k =>
            right
            rw [List.take_succ_cons, List.mem_cons, not_or] at hnot
            have hqp : q ≠ p := by
              intro h
              exact hnot.1 (by rw [h])
            exact ⟨k, by omega, by simpa using hk, hnot.2, (hready q).2 ⟨hqp, hrq⟩⟩

/-- C9: in the walk of the class list by `initModule`, a slot that is empty or
whose class is already ready is skipped: the slot is set to `nullptr` and
nothing else changes, so `init()` is not called and nothing is exposed for it.
When `init()` marks its class ready, one walk calls `init()` at most once per
class, and exactly at the slots holding the first occurrence of a class that
was not ready before the walk. -/
theorem initModule_init_once (cfg : Config) (alloc : Nat → Nat → Bool)
    (registerClass : List (Option Nat) → Nat → List (Option Nat))
    (functionList : List FunctionDef) (classList : List (Option Nat))
    (classes : Nat → BindClass) (hinit : ∀ c, (cfg.init c).ready = true) :
    (∀ i st slot, (slot = none ∨ ∃ p, slot = some p ∧ (st.classes p).ready = true) →
        classStep cfg alloc i st slot = (st, none)) ∧
      ((initModule cfg alloc registerClass functionList classList classes).1.inits.map
        Prod.snd).Nodup ∧
      ∀ j p, (j, p) ∈ (initModule cfg alloc registerClass functionList classList classes).1.inits ↔
        (registerClass classList cfg.nbindInstance)[j]? = some (some p) ∧
        some p ∉ (registerClass classList cfg.nbindInstance).take j ∧
        (classes p).ready = false := by
  refine ⟨fun i st slot h => classStep_skip cfg alloc i st slot h, ?_⟩
  unfold initModule
  obtain ⟨new, hnew, hnd, hmem⟩ := walkClasses_inits cfg alloc hinit
    (registerClass classList cfg.nbindInstance) 0
    { classes := classes
      nBindTemplate := none
      inits := []
      overloader := []
      exports := exportFunctions functionList }
  simp only [List.nil_append] at hnew
  simp only [hnew]
  refine ⟨hnd, ?_⟩
  intro j p
  rw [hmem]
  constructor
  · rintro ⟨k, hj, hk, hnot, hr⟩
    have hjk : j = k := by omega
    subst hjk
    exact ⟨hk, hnot, hr⟩
  · rintro ⟨hk, hnot, hr⟩
    exact ⟨j, by omega, hk, hnot, hr⟩

/-- C9, at a concrete list: with `NBind` registered at the front of the list
`Point, nullptr, NBind, Point`, one walk calls `init()` for `NBind` at slot 0
and for `Point` at slot 1, and for no other slot. -/
theorem initModule_init_once_witness :
    (initModule exampleConfig (fun _ _ => true) exampleRegisterClass []
        [some 2, none, some 1, some 2] exampleClasses).1.inits = [(0, 1), (1, 2)] ∧
      ((initModule exampleConfig (fun _ _ => true) exampleRegisterClass []
        [some 2, none, some 1, some 2] exampleClasses).1.inits.map Prod.snd).Nodup :=
  ⟨by decide,
   (initModule_init_once exampleConfig (fun _ _ => true) exampleRegisterClass []
      [some 2, none, some 1, some 2] exampleClasses (fun _ => rfl)).2.1⟩

/-! ## `initModule`: a setter and a marker after the getter -/

theorem methodStep_members_setter (cfg : Config) (allocOk : Bool) (st : WalkState)
    (m : MethodDef) (hm : m.hasRole .setter = true) :
    (methodStep cfg allocOk st m).members = st.members := by
  cases hs : m.signature with
  | none => simp [MethodDef.hasRole, hs] at hm
  | some signature =>
    have ht : signature.type = .setter := by simpa [MethodDef.hasRole, hs] using hm
    simp only [methodStep, hs, ht]

theorem methodStep_members_none (cfg : Config) (allocOk : Bool) (st : WalkState)
    (m : MethodDef) (hs : m.signature = none) :
    (methodStep cfg allocOk st m).members = st.members := by
  simp only [methodStep, hs]
  split_ifs <;> rfl

/-- C11, as the code has it: for a getter-role entry `g`, then a setter-role
entry `s`, then an empty-getter marker `mk`, coming after the entries `pre`,
the members set are those of `pre` and the one accessor set at `g`: its getter
is the caller of `g`, its setter is the setter pending before `g` (`nullptr`
when no setter precedes it) and its tag packs the id pending before `g` with
the id of `g`; `s` and `mk` set no member and leave this accessor as it is. -/
theorem getter_then_setter_then_marker (cfg : Config) (alloc : Nat → Bool)
    (pre : List MethodDef) (g s mk : MethodDef) (hg : g.hasRole .getter = true)
    (hs : s.hasRole .setter = true) (hmk : isEmptyGetterMarker cfg mk = true) :
    exposedMembers cfg alloc (pre ++ [g, s, mk]) = exposedMembers cfg alloc pre ++
      [Member.accessor (strippedName g.name.chars none (alloc pre.length)) g.caller
        (pendingSetterCaller cfg pre)
        (packAccessor cfg.accessorSetterShift (pendingSetterNum cfg pre) g.num)] := by
  have hnone : mk.signature = none := by
    cases hsig : mk.signature with
    | none => rfl
    | some signature => simp [isEmptyGetterMarker, hsig] at hmk
  have hsplit : pre ++ [g, s, mk] = ((pre ++ [g]) ++ [s]) ++ [mk] := by simp
  unfold exposedMembers
  rw [hsplit, walkMethods_snoc, methodStep_members_none cfg _ _ mk hnone, walkMethods_snoc,
    methodStep_members_setter cfg _ _ s hs, walkMethods_snoc, methodStep_getter cfg _ _ g hg,
    (walkMethods_setter cfg alloc pre).1, (walkMethods_setter cfg alloc pre).2]

/-- C11, at a concrete list: `getX` (id 1, caller 11), then `setX` (id 2,
caller 22), then the empty-getter marker give the one accessor `x` with getter
11, no setter and tag 1. -/
theorem getter_then_setter_then_marker_witness :
    exposedMembers exampleConfig (fun _ => true) ([] ++ [exampleGetX, exampleSetX,
        exampleEmptyGetter])
      = [Member.accessor (cstr "x") 11 0 1] :=
  (getter_then_setter_then_marker exampleConfig (fun _ => true) [] exampleGetX exampleSetX
    exampleEmptyGetter (by decide) (by decide) (by decide)).trans (by decide)

/-- C11 as stated fails: for `getX`, then `setX` (caller 22), then the
empty-getter marker, the accessor `x` has its getter bound (caller 11) and no
setter; no accessor with the getter unbound and the setter 22 is set. -/
theorem getter_then_setter_then_marker_counterexample :
    exposedMembers exampleConfig (fun _ => true) [exampleGetX, exampleSetX, exampleEmptyGetter]
        = [Member.accessor (cstr "x") 11 0 1] ∧
      ¬ ∃ name tag, Member.accessor name 0 22 tag ∈
        exposedMembers exampleConfig (fun _ => true)
          [exampleGetX, exampleSetX, exampleEmptyGetter] := by
  have h : exposedMembers exampleConfig (fun _ => true)
      [exampleGetX, exampleSetX, exampleEmptyGetter] = [Member.accessor (cstr "x") 11 0 1] := by
    decide
  refine ⟨h, ?_⟩
  rw [h]
  simp

/-! ## `initModule`: the always-first class -/

theorem slot_skip_or_init (st : ModuleState) (slot : Option Nat) :
    (slot = none ∨ ∃ p, slot = some p ∧ (st.classes p).ready = true) ∨
      ∃ p, slot = some p ∧ (st.classes p).ready = false := by
  cases slot with
  | none => exact Or.inl (Or.inl rfl)
  | some p =>
    cases hr : (st.classes p).ready with
    | false => exact Or.inr ⟨p, rfl, hr⟩
    | true => exact Or.inl (Or.inr ⟨p, rfl, hr⟩)

theorem classStep_template (cfg : Config) (alloc : Nat → Nat → Bool) (i : Nat)
    (st : ModuleState) (p : Nat) (hr : (st.classes p).ready = false) :
    ∃ t, (classStep cfg alloc i st (some p)).1.templates = st.templates ++ [t] ∧
      t.cls = p ∧
      t.nbind = (if p = cfg.nbindInstance then none else some st.nBindTemplate) ∧
      (classStep cfg alloc i st (some p)).1.nBindTemplate
        = (if p = cfg.nbindInstance then some p else st.nBindTemplate) := by
  simp only [classStep, hr, ModuleState.templates, Bool.false_eq_true, if_false,
    List.filterMap_append, List.filterMap_cons, List.filterMap_nil, Export.template]
  refine ⟨_, rfl, rfl, ?_, ?_⟩
  · by_cases h : p = cfg.nbindInstance <;> simp [h]
  · by_cases h : p = cfg.nbindInstance <;> simp [h]

theorem walkClasses_templates (cfg : Config) (alloc : Nat → Nat → Bool)
    (classList : List (Option Nat)) :
    ∀ (i : Nat) (st : ModuleState), st.nBindTemplate = some cfg.nbindInstance →
      (∀ t ∈ st.templates, hasBackReference cfg t) →
      ∀ t ∈ (walkClasses cfg alloc i st classList).1.templates, hasBackReference cfg t := by
  induction classList with
  | nil =>
    intro i st _ hst
    exact hst
  | cons slot rest ih =>
    intro i st hnb hst
    rw [walkClasses_cons]
    rcases slot_skip_or_init st slot with hskip | ⟨p, hp, hr⟩
    · rw [classStep_skip cfg alloc i st slot hskip]
      exact ih (i + 1) st hnb hst
    · subst hp
      obtain ⟨t, ht, hcls, hnbind, hnew⟩ := classStep_template cfg alloc i st p hr
      apply ih (i + 1)
      · rw [hnew]
        by_cases h : p = cfg.nbindInstance
        · simp [h]
        · simp [h, hnb]
      · intro u hu
        rw [ht, List.mem_append, List.mem_singleton] at hu
        rcases hu with hu | hu
        · exact hst u hu
        · subst hu
          unfold hasBackReference
          rw [hcls, hnbind, hnb]
          by_cases h : p = cfg.nbindInstance <;> simp [h]

theorem walkClasses_templates_inits (cfg : Config) (alloc : Nat → Nat → Bool)
    (classList : List (Option Nat)) :
    ∀ (i : Nat) (st : ModuleState),
      st.templates.map ClassTemplate.cls = st.inits.map Prod.snd →
      (walkClasses cfg alloc i st classList).1.templates.map ClassTemplate.cls
        = (walkClasses cfg alloc i st classList).1.inits.map Prod.snd := by
  induction classList with
  | nil =>
    intro i st hst
    exact hst
  | cons slot rest ih =>
    intro i st hst
    rw [walkClasses_cons]
    rcases slot_skip_or_init st slot with hskip | ⟨p, hp, hr⟩
    · rw [classStep_skip cfg alloc i st slot hskip]
      exact ih (i + 1) st hst
    · subst hp
      obtain ⟨t, ht, hcls, -, -⟩ := classStep_template cfg alloc i st p hr
      apply ih (i + 1)
      rw [ht, (classStep_init cfg alloc i st p hr).1]
      simp [hst, hcls]

theorem initModule_start (cfg : Config) (alloc : Nat → Nat → Bool)
    (functionList : List FunctionDef) (classList : List (Option Nat))
    (classes : Nat → BindClass) :
    (initModule cfg alloc registerClass functionList classList classes).1
      = (walkClasses cfg alloc 1
          (classStep cfg alloc 0
            { classes := classes
              nBindTemplate := none
              inits := []
              overloader := []
              exports := exportFunctions functionList }
            (some cfg.nbindInstance)).1 classList).1 := rfl

theorem exportFunctions_templates (functionList : List FunctionDef) :
    (exportFunctions functionList).filterMap Export.template = [] := by
  induction functionList with
  | nil => rfl
  | cons f fs _ => simp [exportFunctions, Export.template]

/-- C12: with `NBind` registered a second time at the start of `initModule`,
hence first of the walked list, with `init()` marking its class ready and
`NBind` not ready before the walk, one walk calls `init()` for `NBind` exactly
once, and that call is the first call of `init()` of the walk, at slot 0,
whatever the class list held before. -/
theorem initModule_nbind_first (cfg : Config) (alloc : Nat → Nat → Bool)
    (functionList : List FunctionDef) (classList : List (Option Nat))
    (classes : Nat → BindClass) (hinit : ∀ c, (cfg.init c).ready = true)
    (hready : (classes cfg.nbindInstance).ready = false) :
    (initModule cfg alloc registerClass functionList classList classes).1.inits.head?
        = some (0, cfg.nbindInstance) ∧
      ((initModule cfg alloc registerClass functionList classList classes).1.inits.map
        Prod.snd).count cfg.nbindInstance = 1 := by
  rw [initModule_start]
  obtain ⟨hin, hcl, -⟩ := classStep_init cfg alloc 0
    { classes := classes
      nBindTemplate := none
      inits := []
      overloader := []
      exports := exportFunctions functionList } cfg.nbindInstance hready
  obtain ⟨new, hnew, -, hmem⟩ := walkClasses_inits cfg alloc hinit classList 1
    (classStep cfg alloc 0
      { classes := classes
        nBindTemplate := none
        inits := []
        overloader := []
        exports := exportFunctions functionList } (some cfg.nbindInstance)).1
  rw [hnew, hin]
  refine ⟨rfl, ?_⟩
  have hnot : cfg.nbindInstance ∉ new.map Prod.snd := by
    intro h
    obtain ⟨⟨j, q⟩, hjq, hq⟩ := List.mem_map.1 h
    simp only at hq
    subst hq
    obtain ⟨k, -, -, -, hr⟩ := (hmem j cfg.nbindInstance).1 hjq
    rw [hcl] at hr
    simp [hinit] at hr
  simp [List.count_eq_zero_of_not_mem hnot]

/-- C12, at a concrete list: `NBind` (at 1), registered at declaration between
two registrations of `Point` and once more by `initModule`, is initialised
once, first, at slot 0, and `Point` after it. -/
theorem initModule_nbind_first_witness :
    (initModule exampleConfig (fun _ _ => true) registerClass []
        [some 2, some 1, some 2] exampleClasses).1.inits = [(0, 1), (1, 2)] ∧
      (initModule exampleConfig (fun _ _ => true) registerClass []
        [some 2, some 1, some 2] exampleClasses).1.inits.head? = some (0, 1) :=
  ⟨by decide,
   (initModule_nbind_first exampleConfig (fun _ _ => true) [] [some 2, some 1, some 2]
      exampleClasses (fun _ => rfl) (by decide)).1⟩

/-- C13: in the walk of `initModule`, with `NBind` first of the walked list and
not ready before the walk, there is one exported constructor template per
initialised class, in the order of the calls of `init()`; the template of every
class other than `NBind` has the static member `NBind` set to the template of
`NBind`, recorded in `nBindTemplate` before it is used, and the template of
`NBind` has no such member. -/
theorem initModule_back_reference (cfg : Config) (alloc : Nat → Nat → Bool)
    (functionList : List FunctionDef) (classList : List (Option Nat))
    (classes : Nat → BindClass) (hready : (classes cfg.nbindInstance).ready = false) :
    (initModule cfg alloc registerClass functionList classList classes).1.templates.map
        ClassTemplate.cls
        = (initModule cfg alloc registerClass functionList classList classes).1.inits.map
          Prod.snd ∧
      ∀ t ∈ (initModule cfg alloc registerClass functionList classList classes).1.templates,
        (t.cls = cfg.nbindInstance → t.nbind = none) ∧
        (t.cls ≠ cfg.nbindInstance → t.nbind = some (some cfg.nbindInstance)) := by
  rw [initModule_start]
  obtain ⟨hin, -, -⟩ := classStep_init cfg alloc 0
    { classes := classes
      nBindTemplate := none
      inits := []
      overloader := []
      exports := exportFunctions functionList } cfg.nbindInstance hready
  obtain ⟨t0, ht0, hcls, hnbind, hnew⟩ := classStep_template cfg alloc 0
    { classes := classes
      nBindTemplate := none
      inits := []
      overloader := []
      exports := exportFunctions functionList } cfg.nbindInstance hready
  have hfun : (ModuleState.templates
      { classes := classes
        nBindTemplate := none
        inits := []
        overloader := []
        exports := exportFunctions functionList }) = [] :=
    exportFunctions_templates functionList
  rw [hfun, List.nil_append] at ht0
  simp only [if_true] at hnbind hnew
  constructor
  · apply walkClasses_templates_inits
    rw [ht0, hin]
    simp [hcls]
  · intro t ht
    have h := walkClasses_templates cfg alloc classList 1 _ hnew (by
      intro u hu
      rw [ht0, List.mem_singleton] at hu
      subst hu
      unfold hasBackReference
      rw [if_pos hcls]
      exact hnbind) t ht
    unfold hasBackReference at h
    constructor
    · intro hc
      rwa [if_pos hc] at h
    · intro hc
      rwa [if_neg hc] at h

/-- C13, at a concrete list: with `NBind` at 1 and `Point` at 2, the template
of `NBind` has no static member `NBind` and that of `Point` has it set to the
template of `NBind`. -/
theorem initModule_back_reference_witness :
    (initModule exampleConfig (fun _ _ => true) registerClass []
        [some 2, some 1, some 2] exampleClasses).1.templates.map
          (fun t => (t.cls, t.nbind)) = [(1, none), (2, some (some 1))] ∧
      ∀ t ∈ (initModule exampleConfig (fun _ _ => true) registerClass []
          [some 2, some 1, some 2] exampleClasses).1.templates,
        (t.cls = 1 → t.nbind = none) ∧ (t.cls ≠ 1 → t.nbind = some (some 1)) :=
  ⟨by decide,
   (initModule_back_reference exampleConfig (fun _ _ => true) [] [some 2, some 1, some 2]
      exampleClasses (by decide)).2⟩

/-! ## `NBindID`: copy and move -/

/-- C14, as the code has it: a copy has the key of its source and leaves the
source as it is; it has no cached string when the source has none or when
`strdup` fails, and otherwise a cached string of the same content in the
buffer `strdup` handed out. A move gives an object with the key and the
cached string of the source, and leaves the source with its key and no cached
string. -/
theorem copy_move_effect (allocOk : Bool) (addr : Nat) (other : NBindID) :
    (NBindID.copy allocOk addr other).1.id = other.id ∧
      (NBindID.copy allocOk addr other).2 = other ∧
      (other.name = none → (NBindID.copy allocOk addr other).1.name = none) ∧
      (∀ name, other.name = some name →
        (allocOk = true →
          (NBindID.copy allocOk addr other).1.name
            = some { addr := addr, chars := name.chars }) ∧
        (allocOk = false → (NBindID.copy allocOk addr other).1.name = none)) ∧
      (NBindID.move other).1 = { id := other.id, name := other.name } ∧
      (NBindID.move other).2 = { id := other.id, name := none } := by
  refine ⟨rfl, rfl, ?_, ?_, rfl, rfl⟩
  · intro h
    simp [NBindID.copy, h]
  · intro name h
    constructor
    · intro hok
      simp [NBindID.copy, h, hok, strdup]
    · intro hok
      simp [NBindID.copy, h, hok, strdup]

/-- C14, at a concrete object: the copy of an identity of key `0x1f` holding
`"0000001f"` at address 7 holds `"0000001f"` at address 9 when `strdup`
succeeds, and the move leaves the source without a cached string. -/
theorem copy_move_effect_witness :
    (NBindID.copy true 9 { id := 31, name := some { addr := 7, chars := cstr "0000001f" } }).1
        = { id := 31, name := some { addr := 9, chars := cstr "0000001f" } } ∧
      (NBindID.move { id := 31, name := some { addr := 7, chars := cstr "0000001f" } }).2
        = { id := 31, name := none } :=
  ⟨by decide,
   (copy_move_effect true 9
      { id := 31, name := some { addr := 7, chars := cstr "0000001f" } }).2.2.2.2.2⟩

/-- C14 as stated fails: when `strdup` fails, the copy of an identity that holds
the cached string `"0000001f"` holds no cached string. -/
theorem copy_move_effect_counterexample :
    (NBindID.mk 31 (some { addr := 7, chars := cstr "0000001f" })).name
        = some { addr := 7, chars := cstr "0000001f" } ∧
      (NBindID.copy false 9 (NBindID.mk 31 (some { addr := 7, chars := cstr "0000001f" }))).1.name
        = none := by
  decide

/-! ## `stripGetterPrefix`: allocation failure and other fourth characters -/

/-- C15: when `strdup` fails on the lowercasing path (a `get`/`Get` prefix, an
uppercase 4th character and a 5th character that is not uppercase), the
result is the pointer `name` itself, the raw name with its prefix, and
`nameBuf` is `nullptr`; and for every name, buffer and allocation outcome the
function returns a pointer to a string: `name + off` with `off` at most the
length of the name, or the buffer `nameBuf`, which is then not `nullptr`. -/
theorem stripGetterPrefix_alloc_failure (name : List Nat) (nameBuf : Option (List Nat))
    (hlen : 3 < strlen name) (hget : hasGetPrefix name)
    (hU : isUpper (charAt name 3)) (hN : ¬ isUpper (charAt name 4)) :
    stripGetterPrefix name nameBuf false = (.inName 0, none) ∧
      strippedName name nameBuf false = name ∧
      ∀ (anyName : List Nat) (anyBuf : Option (List Nat)) (allocOk : Bool),
        (∃ off, (stripGetterPrefix anyName anyBuf allocOk).1 = .inName off ∧
          off ≤ strlen anyName) ∨
        ((stripGetterPrefix anyName anyBuf allocOk).1 = .inBuf ∧
          (stripGetterPrefix anyName anyBuf allocOk).2 ≠ none) := by
  have hred := stripGetterPrefix_of_get name nameBuf false hlen hget
  unfold isUpper at hU hN
  simp only [Char.reduceToNat] at hU hN
  have hc : charAt name 3 ≠ 95 := by omega
  have hl : ¬ (97 ≤ charAt name 3 ∧ charAt name 3 ≤ 122) := by omega
  have hstrip : stripGetterPrefix name nameBuf false = (.inName 0, none) := by
    rw [hred, if_neg hc, if_neg hl, if_pos hU, if_neg hN]
    rfl
  refine ⟨hstrip, ?_, ?_⟩
  · unfold strippedName
    rw [hstrip]
    simp [deref]
  · intro anyName anyBuf allocOk
    by_cases h3 : strlen anyName ≤ 3
    · left
      refine ⟨0, ?_, Nat.zero_le _⟩
      simp [stripGetterPrefix, h3]
    · have h4 : 4 ≤ strlen anyName := by omega
      unfold stripGetterPrefix
      cases allocOk <;> simp only [strdup] <;> split_ifs <;>
        first
        | exact Or.inl ⟨0, rfl, Nat.zero_le _⟩
        | exact Or.inl ⟨3, rfl, by omega⟩
        | exact Or.inl ⟨4, rfl, h4⟩
        | exact Or.inr ⟨rfl, by simp⟩

/-- C15, at a concrete name: when `strdup` fails, `"getFoo"` is returned as it
is and the buffer held before is gone. -/
theorem stripGetterPrefix_alloc_failure_witness :
    stripGetterPrefix (cstr "getFoo") (some (cstr "old")) false = (.inName 0, none) ∧
      strippedName (cstr "getFoo") (some (cstr "old")) false = cstr "getFoo" :=
  ⟨(stripGetterPrefix_alloc_failure (cstr "getFoo") (some (cstr "old")) (by decide)
      (by decide) (by decide) (by decide)).1,
   by decide⟩

/-- C18: a name longer than 3 characters with a `get`/`Get` prefix whose 4th
character is neither `_` nor an ASCII letter is returned as it is (the pointer
`name` itself), whatever the allocator does, and `nameBuf` is left as it
was. -/
theorem stripGetterPrefix_other_fourth (name : List Nat) (nameBuf : Option (List Nat))
    (allocOk : Bool) (hlen : 3 < strlen name) (hget : hasGetPrefix name)
    (hc : charAt name 3 ≠ '_'.toNat) (hl : ¬ isLower (charAt name 3))
    (hu : ¬ isUpper (charAt name 3)) :
    stripGetterPrefix name nameBuf allocOk = (.inName 0, nameBuf) ∧
      strippedName name nameBuf allocOk = name ∧
      strippedName (cstr "get1") nameBuf allocOk = cstr "get1" ∧
      strippedName (cstr "get-x") nameBuf allocOk = cstr "get-x" := by
  have key : ∀ (n : List Nat), 3 < strlen n → hasGetPrefix n → charAt n 3 ≠ '_'.toNat →
      ¬ isLower (charAt n 3) → ¬ isUpper (charAt n 3) →
      stripGetterPrefix n nameBuf allocOk = (.inName 0, nameBuf) ∧
        strippedName n nameBuf allocOk = n := by
    intro n h3 hg h1 h2 h4
    have hred := stripGetterPrefix_of_get n nameBuf allocOk h3 hg
    unfold isLower at h2
    unfold isUpper at h4
    simp only [Char.reduceToNat] at h1 h2 h4
    have hstrip : stripGetterPrefix n nameBuf allocOk = (.inName 0, nameBuf) := by
      rw [hred, if_neg h1, if_neg h2, if_neg h4]
    refine ⟨hstrip, ?_⟩
    unfold strippedName
    rw [hstrip]
    simp [deref]
  exact ⟨(key name hlen hget hc hl hu).1, (key name hlen hget hc hl hu).2,
    (key (cstr "get1") (by decide) (by decide) (by decide) (by decide) (by decide)).2,
    (key (cstr "get-x") (by decide) (by decide) (by decide) (by decide) (by decide)).2⟩

/-- C18, at a concrete name: `"get9lives"` keeps its prefix and the buffer held
before stays. -/
theorem stripGetterPrefix_other_fourth_witness :
    stripGetterPrefix (cstr "get9lives") (some (cstr "old")) true
      = (.inName 0, some (cstr "old")) :=
  (stripGetterPrefix_other_fourth (cstr "get9lives") (some (cstr "old")) true (by decide)
    (by decide) (by decide) (by decide) (by decide)).1

/-! ## `stripGetterPrefix`: the reads of the name -/

theorem stripGetterPrefixReads_result (name : List Nat) (nameBuf : Option (List Nat))
    (allocOk : Bool) :
    (stripGetterPrefixReads name nameBuf allocOk).1 = stripGetterPrefix name nameBuf allocOk := by
  unfold stripGetterPrefixReads stripGetterPrefix
  simp only [Char.reduceToNat]
  by_cases h3 : strlen name ≤ 3
  · rw [if_pos h3, if_pos (Or.inl h3)]
  rw [if_neg h3]
  by_cases h0 : charAt name 0 ≠ 71 ∧ charAt name 0 ≠ 103
  · rw [if_pos h0, if_pos (Or.inr (Or.inl h0))]
  rw [if_neg h0]
  by_cases h1 : charAt name 1 ≠ 101
  · rw [if_pos h1, if_pos (Or.inr (Or.inr (Or.inl h1)))]
  rw [if_neg h1]
  by_cases h2 : charAt name 2 ≠ 116
  · rw [if_pos h2, if_pos (Or.inr (Or.inr (Or.inr h2)))]
  have hcond : ¬ (strlen name ≤ 3 ∨ (charAt name 0 ≠ 71 ∧ charAt name 0 ≠ 103) ∨
      charAt name 1 ≠ 101 ∨ charAt name 2 ≠ 116) := by tauto
  rw [if_neg h2, if_neg hcond]
  by_cases hc : charAt name 3 = 95
  · rw [if_pos hc, if_pos hc]
  rw [if_neg hc, if_neg hc]
  by_cases hl : 97 ≤ charAt name 3 ∧ charAt name 3 ≤ 122
  · rw [if_pos hl, if_pos hl]
  rw [if_neg hl, if_neg hl]
  by_cases hu : 65 ≤ charAt name 3 ∧ charAt name 3 ≤ 90
  · rw [if_pos hu, if_pos hu]
    by_cases hu4 : 65 ≤ charAt name 4 ∧ charAt name 4 ≤ 90
    · rw [if_pos hu4, if_pos hu4]
    · rw [if_neg hu4, if_neg hu4]
      cases allocOk <;> rfl
  · rw [if_neg hu, if_neg hu]

theorem stripGetterPrefixReads_bound (name : List Nat) (nameBuf : Option (List Nat))
    (allocOk : Bool) :
    ∀ i ∈ (stripGetterPrefixReads name nameBuf allocOk).2, i ≤ strlen name := by
  have hr0 : ∀ i ∈ List.range (strlen name + 1), i ≤ strlen name := by
    intro i hi
    rw [List.mem_range] at hi
    omega
  unfold stripGetterPrefixReads
  simp only [Char.reduceToNat]
  by_cases h3 : strlen name ≤ 3
  · rw [if_pos h3]
    exact hr0
  rw [if_neg h3]
  have hr1 : ∀ i ∈ List.range (strlen name + 1) ++
      (if charAt name 0 ≠ 71 then [0, 0] else [0]), i ≤ strlen name := by
    intro i hi
    rw [List.mem_append] at hi
    rcases hi with hi | hi
    · exact hr0 i hi
    · split_ifs at hi <;> simp at hi <;> omega
  have hsnoc : ∀ (l : List Nat) (k : Nat), (∀ i ∈ l, i ≤ strlen name) → k ≤ strlen name →
      ∀ i ∈ l ++ [k], i ≤ strlen name := by
    intro l k hl hk i hi
    rw [List.mem_append, List.mem_singleton] at hi
    rcases hi with hi | hi
    · exact hl i hi
    · omega
  by_cases h0 : charAt name 0 ≠ 71 ∧ charAt name 0 ≠ 103
  · rw [if_pos h0]
    exact hr1
  rw [if_neg h0]
  have hr2 := hsnoc _ 1 hr1 (by omega)
  by_cases h1 : charAt name 1 ≠ 101
  · rw [if_pos h1]
    exact hr2
  rw [if_neg h1]
  have hr3 := hsnoc _ 2 hr2 (by omega)
  by_cases h2 : charAt name 2 ≠ 116
  · rw [if_pos h2]
    exact hr3
  rw [if_neg h2]
  have hr4 := hsnoc _ 3 hr3 (by omega)
  by_cases hc : charAt name 3 = 95
  · rw [if_pos hc]
    exact hr4
  rw [if_neg hc]
  by_cases hl : 97 ≤ charAt name 3 ∧ charAt name 3 ≤ 122
  · rw [if_pos hl]
    exact hr4
  rw [if_neg hl]
  by_cases hu : 65 ≤ charAt name 3 ∧ charAt name 3 ≤ 90
  · rw [if_pos hu]
    have hr5 : ∀ i ∈ List.range (strlen name + 1) ++
        (if charAt name 0 ≠ 71 then [0, 0] else [0]) ++ [1] ++ [2] ++ [3] ++
        (if 65 ≤ charAt name 4 then [4, 4] else [4]), i ≤ strlen name := by
      intro i hi
      rw [List.mem_append] at hi
      rcases hi with hi | hi
      · exact hr4 i hi
      · split_ifs at hi <;> simp at hi <;> omega
    by_cases hu4 : 65 ≤ charAt name 4 ∧ charAt name 4 ≤ 90
    · rw [if_pos hu4]
      exact hr5
    · rw [if_neg hu4]
      have hr6 : ∀ i ∈ List.range (strlen name + 1) ++
          (if charAt name 0 ≠ 71 then [0, 0] else [0]) ++ [1] ++ [2] ++ [3] ++
          (if 65 ≤ charAt name 4 then [4, 4] else [4]) ++
          List.range' 3 (strlen name + 1 - 3), i ≤ strlen name := by
        intro i hi
        rw [List.mem_append] at hi
        rcases hi with hi | hi
        · exact hr5 i hi
        · rw [List.mem_range'_1] at hi
          omega
      cases allocOk <;> exact hr6
  · rw [if_neg hu]
    exact hr4

theorem stripGetterPrefixReads_scan (name : List Nat) (nameBuf : Option (List Nat))
    (allocOk : Bool) :
    List.range (strlen name + 1) <+: (stripGetterPrefixReads name nameBuf allocOk).2 ∧
      (strlen name ≤ 3 →
        (stripGetterPrefixReads name nameBuf allocOk).2 = List.range (strlen name + 1)) := by
  have hext : ∀ (l x : List Nat), List.range (strlen name + 1) <+: l →
      List.range (strlen name + 1) <+: l ++ x :=
    fun l x h => List.IsPrefix.trans h (List.prefix_append l x)
  have hr0 : List.range (strlen name + 1) <+: List.range (strlen name + 1) :=
    List.prefix_refl _
  unfold stripGetterPrefixReads
  simp only [Char.reduceToNat]
  by_cases h3 : strlen name ≤ 3
  · rw [if_pos h3]
    exact ⟨hr0, fun _ => rfl⟩
  rw [if_neg h3]
  refine ⟨?_, fun h => absurd h h3⟩
  have hr1 := hext _ (if charAt name 0 ≠ 71 then [0, 0] else [0]) hr0
  have hr2 := hext _ [1] hr1
  have hr3 := hext _ [2] hr2
  have hr4 := hext _ [3] hr3
  have hr5 := hext _ (if 65 ≤ charAt name 4 then [4, 4] else [4]) hr4
  have hr6 := hext _ (List.range' 3 (strlen name + 1 - 3)) hr5
  by_cases h0 : charAt name 0 ≠ 71 ∧ charAt name 0 ≠ 103
  · rw [if_pos h0]
    exact hr1
  rw [if_neg h0]
  by_cases h1 : charAt name 1 ≠ 101
  · rw [if_pos h1]
    exact hr2
  rw [if_neg h1]
  by_cases h2 : charAt name 2 ≠ 116
  · rw [if_pos h2]
    exact hr3
  rw [if_neg h2]
  by_cases hc : charAt name 3 = 95
  · rw [if_pos hc]
    exact hr4
  rw [if_neg hc]
  by_cases hl : 97 ≤ charAt name 3 ∧ charAt name 3 ≤ 122
  · rw [if_pos hl]
    exact hr4
  rw [if_neg hl]
  by_cases hu : 65 ≤ charAt name 3 ∧ charAt name 3 ≤ 90
  · rw [if_pos hu]
    by_cases hu4 : 65 ≤ charAt name 4 ∧ charAt name 4 ≤ 90
    · rw [if_pos hu4]
      exact hr5
    · rw [if_neg hu4]
      cases allocOk <;> exact hr6
  · rw [if_neg hu]
    exact hr4

theorem stripGetterPrefix_pointer (name : List Nat) (nameBuf : Option (List Nat))
    (allocOk : Bool) :
    (∃ off, (stripGetterPrefix name nameBuf allocOk).1 = .inName off ∧ off ≤ strlen name) ∨
      ((stripGetterPrefix name nameBuf allocOk).1 = .inBuf ∧
        (stripGetterPrefix name nameBuf allocOk).2 ≠ none) := by
  by_cases h3 : strlen name ≤ 3
  · left
    refine ⟨0, ?_, Nat.zero_le _⟩
    simp [stripGetterPrefix, h3]
  · have h4 : 4 ≤ strlen name := by omega
    unfold stripGetterPrefix
    cases allocOk <;> simp only [strdup] <;> split_ifs <;>
      first
      | exact Or.inl ⟨0, rfl, Nat.zero_le _⟩
      | exact Or.inl ⟨3, rfl, by omega⟩
      | exact Or.inl ⟨4, rfl, h4⟩
      | exact Or.inr ⟨rfl, by simp⟩

/-- C16: `stripGetterPrefix` reads a name only at indices from 0 to its length,
the index of the terminator: the reads begin with those of `strlen(name)`;
when the length is at most 3 there is no other read, so the indices 0 to 2 are
compared, and the indices 3 and 4 read, only for a longer name; and a returned
pointer `name + off` has `off` at most the length of the name. The function
with its reads returns what `stripGetterPrefix` returns. -/
theorem stripGetterPrefix_reads_in_range (name : List Nat) (nameBuf : Option (List Nat))
    (allocOk : Bool) :
    (stripGetterPrefixReads name nameBuf allocOk).1 = stripGetterPrefix name nameBuf allocOk ∧
      (∀ i ∈ (stripGetterPrefixReads name nameBuf allocOk).2, i ≤ strlen name) ∧
      List.range (strlen name + 1) <+: (stripGetterPrefixReads name nameBuf allocOk).2 ∧
      (strlen name ≤ 3 →
        (stripGetterPrefixReads name nameBuf allocOk).2 = List.range (strlen name + 1)) ∧
      (∀ off, (stripGetterPrefix name nameBuf allocOk).1 = .inName off → off ≤ strlen name) := by
  refine ⟨stripGetterPrefixReads_result name nameBuf allocOk,
    stripGetterPrefixReads_bound name nameBuf allocOk,
    (stripGetterPrefixReads_scan name nameBuf allocOk).1,
    (stripGetterPrefixReads_scan name nameBuf allocOk).2, ?_⟩
  intro off hoff
  rcases stripGetterPrefix_pointer name nameBuf allocOk with ⟨off2, h, hle⟩ | ⟨h, -⟩
  · rw [h] at hoff
    cases hoff
    exact hle
  · rw [h] at hoff
    cases hoff

/-- C16, at concrete names: for `"getX"` the reads are the five of `strlen`,
then the indices 0, 1, 2, 3, 4 and the two of `strdup`, all at most 4; for
`"get"` they are the four of `strlen` alone. -/
theorem stripGetterPrefix_reads_in_range_witness :
    (stripGetterPrefixReads (cstr "getX") none true).2
        = [0, 1, 2, 3, 4, 0, 0, 1, 2, 3, 4, 3, 4] ∧
      (stripGetterPrefixReads (cstr "get") none true).2 = [0, 1, 2, 3] ∧
      ∀ i ∈ (stripGetterPrefixReads (cstr "getX") none true).2, i ≤ strlen (cstr "getX") :=
  ⟨by decide, by decide,
   (stripGetterPrefix_reads_in_range (cstr "getX") none true).2.1⟩

/-! ## `NBindID`: the cached string and the key -/

theorem toString_of_none (sz addr : Nat) (fresh : Nat → Nat) (self : NBindID)
    (hsz : sz * 2 < 2 ^ 32) (h : self.name = none) :
    NBindID.toString sz addr fresh self
      = ({ addr := addr, chars := hexOfKey sz self.id },
         { id := self.id, name := some { addr := addr, chars := hexOfKey sz self.id } }) := by
  have hpos : (sz * 2) % 2 ^ 32 = sz * 2 := Nat.mod_eq_of_lt hsz
  have hstr : stringOf (hexDigits (sz * 2) (self.id % 2 ^ (8 * sz)) ++ [0])
      = hexDigits (sz * 2) (self.id % 2 ^ (8 * sz)) :=
    stringOf_append_nul _ [] (fun c hc => (hexDigits_mem _ _ c hc).1)
  simp only [NBindID.toString, h, hpos, toString_buffer, hstr, hexOfKey]

theorem toString_of_valid (sz addr : Nat) (fresh : Nat → Nat) (self : NBindID)
    (hsz : sz * 2 < 2 ^ 32) (hv : self.cacheValid sz) :
    (NBindID.toString sz addr fresh self).1.chars = hexOfKey sz self.id ∧
      (NBindID.toString sz addr fresh self).2.cacheValid sz := by
  cases hname : self.name with
  | none =>
    rw [toString_of_none sz addr fresh self hsz hname]
    refine ⟨rfl, ?_⟩
    intro name hn
    simp only [Option.some.injEq] at hn
    rw [← hn]
  | some name =>
    have hres : NBindID.toString sz addr fresh self = (name, self) := by
      simp [NBindID.toString, hname]
    rw [hres]
    exact ⟨hv name hname, hv⟩

/-- C19: the operations of `NBindID` keep the cached string, when there is one,
equal to the zero-padded lowercase hexadecimal numeral of the object's own
key: a new object has none; a copy and its source, a move target and its
source, and the object after `toString` have a valid cache when the object
before had one. Hence `toString` on an object with a valid cache returns the
numeral of its key, and two such objects with equal keys return strings of
equal content, whatever their caches and whatever the allocator hands out. -/
theorem cacheValid_preserved (sz : Nat) (hsz : sz * 2 < 2 ^ 32) :
    (∀ k, (NBindID.new k).cacheValid sz) ∧
      (∀ allocOk addr x, NBindID.cacheValid sz x →
        (NBindID.copy allocOk addr x).1.cacheValid sz ∧
        (NBindID.copy allocOk addr x).2.cacheValid sz) ∧
      (∀ x, NBindID.cacheValid sz x →
        (NBindID.move x).1.cacheValid sz ∧ (NBindID.move x).2.cacheValid sz) ∧
      (∀ addr fresh x, NBindID.cacheValid sz x →
        (NBindID.toString sz addr fresh x).2.cacheValid sz ∧
        (NBindID.toString sz addr fresh x).1.chars = hexOfKey sz x.id) ∧
      (∀ addr1 fresh1 addr2 fresh2 x y, NBindID.cacheValid sz x → NBindID.cacheValid sz y →
        x.id = y.id →
        (NBindID.toString sz addr1 fresh1 x).1.chars
          = (NBindID.toString sz addr2 fresh2 y).1.chars) := by
  refine ⟨?_, ?_, ?_, ?_, ?_⟩
  · intro k name hn
    simp [NBindID.new] at hn
  · intro allocOk addr x hx
    refine ⟨?_, hx⟩
    intro name hn
    cases hname : x.name with
    | none => simp [NBindID.copy, hname] at hn
    | some n =>
      cases allocOk with
      | false => simp [NBindID.copy, hname, strdup] at hn
      | true =>
        simp only [NBindID.copy, hname, strdup, if_true, Option.map_some',
          Option.some.injEq] at hn
        rw [← hn]
        exact hx n hname
  · intro x hx
    constructor
    · intro name hn
      exact hx name hn
    · intro name hn
      simp [NBindID.move] at hn
  · intro addr fresh x hx
    exact ⟨(toString_of_valid sz addr fresh x hsz hx).2,
      (toString_of_valid sz addr fresh x hsz hx).1⟩
  · intro addr1 fresh1 addr2 fresh2 x y hx hy hid
    rw [(toString_of_valid sz addr1 fresh1 x hsz hx).1,
      (toString_of_valid sz addr2 fresh2 y hsz hy).1, hid]

/-- C19, at concrete objects: with 4-byte keys, a fresh identity of key `0x1f`
and the moved-from source of one that had its string cached both display
`"0000001f"`. -/
theorem cacheValid_preserved_witness :
    (NBindID.toString 4 7 (fun _ => 1) (NBindID.new 31)).1.chars = cstr "0000001f" ∧
      (NBindID.toString 4 7 (fun _ => 1) (NBindID.new 31)).1.chars
        = (NBindID.toString 4 8 (fun _ => 2)
            (NBindID.move (NBindID.toString 4 9 (fun _ => 3) (NBindID.new 31)).2).2).1.chars :=
  ⟨by decide,
   (cacheValid_preserved 4 (by decide)).2.2.2.2 7 (fun _ => 1) 8 (fun _ => 2)
      (NBindID.new 31) (NBindID.move (NBindID.toString 4 9 (fun _ => 3) (NBindID.new 31)).2).2
      ((cacheValid_preserved 4 (by decide)).1 31)
      (((cacheValid_preserved 4 (by decide)).2.2.1 _
        (((cacheValid_preserved 4 (by decide)).2.2.2.1 9 (fun _ => 3) (NBindID.new 31)
          ((cacheValid_preserved 4 (by decide)).1 31)).1)).2)
      rfl⟩

/-! ## `initModule`: the empty-getter marker -/

theorem walkMethods_eq_with (cfg : Config) (alloc : Nat → Bool) (i : Nat) (st : WalkState)
    (ms : List MethodDef) :
    walkMethods cfg alloc i st ms = walkMethodsWith cfg st (withOutcomes alloc i ms) := by
  induction ms generalizing i st with
  | nil => rfl
  | cons m ms ih =>
    rw [walkMethods, withOutcomes, walkMethodsWith]
    exact ih _ _

theorem methodStep_agree (cfg : Config) (allocOk : Bool) (st st2 : WalkState) (m : MethodDef)
    (h : st.agree st2) :
    (methodStep cfg allocOk st m).agree (methodStep cfg allocOk st2 m) := by
  obtain ⟨h1, h2, h3, h4⟩ := h
  cases hs : m.signature with
  | none =>
    simp only [methodStep, hs, WalkState.agree]
    split_ifs <;> exact ⟨h1, by first | rfl | exact h2, by first | rfl | exact h3, h4⟩
  | some signature =>
    cases ht : signature.type <;>
      simp only [methodStep, hs, ht, WalkState.agree, h1, h2, h3, h4, and_self]

theorem methodStep_marker_agree (cfg : Config) (hne : cfg.emptyGetter ≠ cfg.emptySetter)
    (allocOk : Bool) (st : WalkState) (m : MethodDef)
    (hm : isEmptyGetterMarker cfg m = true) :
    st.agree (methodStep cfg allocOk st m) := by
  cases hs : m.signature with
  | some signature => simp [isEmptyGetterMarker, hs] at hm
  | none =>
    have haddr : m.name.addr = cfg.emptyGetter := by
      simpa [isEmptyGetterMarker, hs] using hm
    have hset : ¬ m.name.addr = cfg.emptySetter := by
      rw [haddr]
      exact hne
    simp only [methodStep, hs, haddr, if_true, WalkState.agree]
    rw [if_neg (by rw [← haddr]; exact hset)]
    exact ⟨rfl, rfl, rfl, rfl⟩

theorem walkMethodsWith_filter (cfg : Config) (hne : cfg.emptyGetter ≠ cfg.emptySetter)
    (entries : List (MethodDef × Bool)) :
    ∀ st st2 : WalkState, st.agree st2 →
      (walkMethodsWith cfg st
        (entries.filter (fun e => !isEmptyGetterMarker cfg e.1))).agree
        (walkMethodsWith cfg st2 entries) := by
  induction entries with
  | nil =>
    intro st st2 h
    exact h
  | cons e rest ih =>
    intro st st2 h
    obtain ⟨m, allocOk⟩ := e
    by_cases hm : isEmptyGetterMarker cfg m = true
    · rw [List.filter_cons_of_neg (by simp [hm]), walkMethodsWith]
      apply ih
      obtain ⟨h1, h2, h3, h4⟩ := h
      obtain ⟨k1, k2, k3, k4⟩ := methodStep_marker_agree cfg hne allocOk st2 m hm
      exact ⟨h1.trans k1, h2.trans k2, h3.trans k3, h4.trans k4⟩
    · rw [List.filter_cons_of_pos (by simp [hm]), walkMethodsWith, walkMethodsWith]
      exact ih _ _ (methodStep_agree cfg allocOk st st2 m h)

theorem withOutcomes_filter (allocOk : Bool) (keep : MethodDef → Bool) (ms : List MethodDef) :
    ∀ i j, withOutcomes (fun _ => allocOk) i (ms.filter keep)
      = (withOutcomes (fun _ => allocOk) j ms).filter (fun e => keep e.1) := by
  induction ms with
  | nil =>
    intro i j
    rfl
  | cons m ms ih =>
    intro i j
    by_cases hk : keep m = true
    · rw [List.filter_cons_of_pos hk, withOutcomes, withOutcomes,
        List.filter_cons_of_pos (by simpa using hk), ih (i + 1) (j + 1)]
    · rw [List.filter_cons_of_neg hk, withOutcomes,
        List.filter_cons_of_neg (by simpa using hk), ih i (j + 1)]

/-- C17, as the code has it: when the names `emptyGetter` and `emptySetter` are
distinct, the empty-getter marker is not observable in the members set from a
method list:
removing the empty-getter markers from a list, whose entries keep the
allocation outcome they had, leaves the sequence of members as it is; so does
removing them from a list walked with an allocator of constant outcome. The
reason is that no step of the loop reads the pending getter or its id: two
states that differ only in them give, for the same entry, the same members,
buffer and pending setter. -/
theorem emptyGetter_unobservable (cfg : Config) (hne : cfg.emptyGetter ≠ cfg.emptySetter) :
    (∀ alloc ms, exposedMembers cfg alloc ms
        = (walkMethodsWith cfg WalkState.start (withOutcomes alloc 0 ms)).members) ∧
      (∀ entries : List (MethodDef × Bool),
        (walkMethodsWith cfg WalkState.start
          (entries.filter (fun e => !isEmptyGetterMarker cfg e.1))).members
          = (walkMethodsWith cfg WalkState.start entries).members) ∧
      (∀ allocOk ms,
        exposedMembers cfg (fun _ => allocOk) (ms.filter (fun m => !isEmptyGetterMarker cfg m))
          = exposedMembers cfg (fun _ => allocOk) ms) ∧
      (∀ allocOk st g n m,
        (methodStep cfg allocOk { st with getter := g, getterNum := n } m).agree
          (methodStep cfg allocOk st m)) := by
  have hstart : WalkState.start.agree WalkState.start := ⟨rfl, rfl, rfl, rfl⟩
  refine ⟨?_, ?_, ?_, ?_⟩
  · intro alloc ms
    unfold exposedMembers
    rw [walkMethods_eq_with]
  · intro entries
    exact (walkMethodsWith_filter cfg hne entries _ _ hstart).2.2.2
  · intro allocOk ms
    unfold exposedMembers
    rw [walkMethods_eq_with, walkMethods_eq_with,
      withOutcomes_filter allocOk (fun m => !isEmptyGetterMarker cfg m) ms 0 0]
    exact (walkMethodsWith_filter cfg hne _ _ _ hstart).2.2.2
  · intro allocOk st g n m
    exact methodStep_agree cfg allocOk _ _ m ⟨rfl, rfl, rfl, rfl⟩

/-- C17, at a concrete list: `setX`, the empty-getter marker, `getX`, `move`
give the same members as `setX`, `getX`, `move`. -/
theorem emptyGetter_unobservable_witness :
    exposedMembers exampleConfig (fun _ => true)
        ([exampleSetX, exampleEmptyGetter, exampleGetX, exampleMove].filter
          (fun m => !isEmptyGetterMarker exampleConfig m))
      = exposedMembers exampleConfig (fun _ => true)
          [exampleSetX, exampleEmptyGetter, exampleGetX, exampleMove] ∧
      exposedMembers exampleConfig (fun _ => true)
          [exampleSetX, exampleEmptyGetter, exampleGetX, exampleMove]
        = [Member.accessor (cstr "x") 11 22 131073, Member.proto (cstr "move") 33 3] :=
  ⟨(emptyGetter_unobservable exampleConfig (by decide)).2.2.1 true
      [exampleSetX, exampleEmptyGetter, exampleGetX, exampleMove],
   by decide⟩

/-- C17 as stated fails: when `emptyGetter` and `emptySetter` are one address,
an entry with no signature and that name is both markers and clears the
pending setter too. For `setX` (id 2, caller 22), the marker, `getX` (id 1,
caller 11), the accessor `x` has no setter and tag 1; with the marker removed
it has the setter 22 and tag `(2 << 16) | 1`. -/
theorem emptyGetter_unobservable_counterexample :
    isEmptyGetterMarker exampleSharedConfig exampleEmptyGetter = true ∧
      exposedMembers exampleSharedConfig (fun _ => true)
          [exampleSetX, exampleEmptyGetter, exampleGetX]
        = [Member.accessor (cstr "x") 11 0 1] ∧
      exposedMembers exampleSharedConfig (fun _ => true)
          ([exampleSetX, exampleEmptyGetter, exampleGetX].filter
            (fun m => !isEmptyGetterMarker exampleSharedConfig m))
        = [Member.accessor (cstr "x") 11 22 131073] ∧
      exposedMembers exampleSharedConfig (fun _ => true)
          ([exampleSetX, exampleEmptyGetter, exampleGetX].filter
            (fun m => !isEmptyGetterMarker exampleSharedConfig m))
        ≠ exposedMembers exampleSharedConfig (fun _ => true)
            [exampleSetX, exampleEmptyGetter, exampleGetX] := by
  decide

end NBind
